import Mathlib

namespace PerlinNoise

/-!
Verification development for the voxel-world simulation (block-sandbox).

The source is TypeScript; JavaScript numbers are embedded as `ℚ` (every
arithmetic operation the embedded code performs is exact rational
arithmetic: `+ - * /`, `Math.floor`, `Math.ceil`, `Math.round`, `%`),
integer lattice data as `ℤ`/`ℕ`, and `null`/`undefined` results as
`Option`.  Bitwise `^` (used only by the gradient hash) is embedded with
exact 32-bit two's-complement semantics.

Configuration constants that the sources import from `@/constants/world`
and `@/constants/perlin` (`GRAVITY`, `MAX_VELOCITY`, `SEA_LEVEL`,
`CHUNK_SIZE`, `WORLD_SIZE`, `RENDER_BLOCK_DISTANCE`,
`PERLIN_NOISE_AMPLITUDE`, `PERLIN_NOISE_SCALE`) are not present in the
repository snapshot (the checked-in `constants/world.ts` is an older
revision lacking them); they are taken as explicit parameters, following
the spec section 6 which lists them as startup configuration.
Player constants (`PLAYER_DIMENSIONS = {width:.5, height:2, length:.5}`,
`PLAYER_VERTICAL_OFFSET = 1/2`, `JUMP_VELOCITY = 1/5`, `BLOCK_SIZE = 1`)
are present in the sources and are embedded with their concrete values.
-/
/-- The fixed 8-direction gradient set from `src/core/Renderable.ts`
(`const gradients`). -/
def gradients : List (ℤ × ℤ) :=
  [(1, 1), (-1, 1), (1, -1), (-1, -1), (1, 0), (-1, 0), (0, 1), (0, -1)]

/-- JavaScript `ToUint32`: the unsigned 32-bit representation of an
integer. -/
def toUint32 (n : ℤ) : ℕ := (n % 4294967296).toNat

/-- Reinterpret an unsigned 32-bit value as a signed 32-bit integer. -/
def ofUint32 (u : ℕ) : ℤ := if u < 2147483648 then (u : ℤ) else (u : ℤ) - 4294967296

/-- JavaScript bitwise `^` on numbers: both operands are converted with
`ToInt32` and xor-ed in 32-bit two's complement. -/
def jsXor (a b : ℤ) : ℤ := ofUint32 (Nat.xor (toUint32 a) (toUint32 b))

/-- The deterministic gradient hash from `PerlinNoise.getGradient`:
`Math.abs((ix * 1836311903) ^ (iy * 2971215073) ^ seed) % gradients.length`. -/
def gradientIndex (seed ix iy : ℤ) : ℕ :=
  (jsXor (jsXor (ix * 1836311903) (iy * 2971215073)) seed).natAbs % 8

/-- The gradient assigned to lattice point `(ix, iy)` (the pure value that
`PerlinNoise.getGradient` computes and caches). -/
def getGradient (seed ix iy : ℤ) : ℤ × ℤ :=
  gradients.get ⟨gradientIndex seed ix iy, Nat.mod_lt _ (by simp [gradients])⟩

/-- `PerlinNoise.smooth`: the quintic smoothing `t³(t(6t−15)+10)`. -/
def smooth (t : ℚ) : ℚ := t * t * t * (t * (t * 6 - 15) + 10)

/-- `PerlinNoise.interpolate`: linear interpolation `a + x(b−a)`. -/
def interpolate (a b x : ℚ) : ℚ := a + x * (b - a)

/-- `PerlinNoise.dotProduct`: dot product of the lattice gradient with the
distance vector from the lattice point to `(x, y)`. -/
def dotProduct (seed : ℤ) (ix iy : ℤ) (x y : ℚ) : ℚ :=
  (getGradient seed ix iy).1 * (x - (ix : ℚ)) + (getGradient seed ix iy).2 * (y - (iy : ℚ))

/-- `PerlinNoise.rawNoise`: locate the four surrounding lattice points,
take the four gradient dot products, and interpolate with the smoothed
fractional parts. -/
def rawNoise (seed : ℤ) (x y : ℚ) : ℚ :=
  let x0 : ℤ := ⌊x⌋
  let x1 : ℤ := x0 + 1
  let y0 : ℤ := ⌊y⌋
  let y1 : ℤ := y0 + 1
  let sx := smooth (x - (x0 : ℚ))
  let sy := smooth (y - (y0 : ℚ))
  let n0 := dotProduct seed x0 y0 x y
  let n1 := dotProduct seed x1 y0 x y
  let ix0 := interpolate n0 n1 sx
  let n2 := dotProduct seed x0 y1 x y
  let n3 := dotProduct seed x1 y1 x y
  let ix1 := interpolate n2 n3 sx
  interpolate ix0 ix1 sy

/-- The octave accumulation loop of `PerlinNoise.noise`: each iteration
adds `rawNoise(x·frequency, y·frequency) · amplitude` to the running total
and `amplitude` to the running normalizer, then halves the amplitude and
doubles the frequency. -/
def noiseAux (seed : ℤ) (x y : ℚ) :
    ℕ → ℚ → ℚ → ℚ → ℚ → ℚ × ℚ
  | 0, total, _, _, maxValue => (total, maxValue)
  | n + 1, total, frequency, amplitude, maxValue =>
      noiseAux seed x y n (total + rawNoise seed (x * frequency) (y * frequency) * amplitude)
        (frequency * 2) (amplitude * (1 / 2)) (maxValue + amplitude)

/-- `PerlinNoise.noise`: 5 octaves starting at frequency 1 and amplitude
`PERLIN_NOISE_AMPLITUDE` (taken as the parameter `amplitude`), normalized
by the accumulated amplitude sum. -/
def noise (seed : ℤ) (amplitude : ℚ) (x y : ℚ) : ℚ :=
  (noiseAux seed x y 5 0 1 amplitude 0).1 / (noiseAux seed x y 5 0 1 amplitude 0).2

/-!
The stateful view of `PerlinNoise` for C6: a `PerlinNoise` instance holds
an immutable seed and the mutable memoized gradient cache
`#gradients : { [key: string]: Gradient }` keyed by the string
`${ix},${iy}` (embedded as the pair `(ix, iy)`; the string rendering of a
pair of integers with a comma separator is injective).
-/
/-- A `PerlinNoise` instance: seed plus the append-only gradient cache. -/
structure State where
  seed : ℤ
  cache : List ((ℤ × ℤ) × (ℤ × ℤ))
deriving DecidableEq

/-- Lookup in the gradient cache (`key in this.#gradients`). -/
def cacheLookup (k : ℤ × ℤ) : List ((ℤ × ℤ) × (ℤ × ℤ)) → Option (ℤ × ℤ)
  | [] => none
  | e :: rest => if e.1 = k then some e.2 else cacheLookup k rest

/-- `PerlinNoise.getGradient` with its cache effect: on a miss the hashed
gradient is stored and returned, on a hit the cached value is returned
unchanged. -/
def getGradientS (st : State) (ix iy : ℤ) : (ℤ × ℤ) × State :=
  match cacheLookup (ix, iy) st.cache with
  | some g => (g, st)
  | none =>
      (getGradient st.seed ix iy,
        ⟨st.seed, ((ix, iy), getGradient st.seed ix iy) :: st.cache⟩)

/-- `PerlinNoise.dotProduct`, threading the cache state. -/
def dotProductS (st : State) (ix iy : ℤ) (x y : ℚ) : ℚ × State :=
  let r := getGradientS st ix iy
  (r.1.1 * (x - (ix : ℚ)) + r.1.2 * (y - (iy : ℚ)), r.2)

/-- `PerlinNoise.rawNoise`, threading the cache state through the four
corner lookups in source order. -/
def rawNoiseS (st : State) (x y : ℚ) : ℚ × State :=
  let x0 : ℤ := ⌊x⌋
  let x1 : ℤ := x0 + 1
  let y0 : ℤ := ⌊y⌋
  let y1 : ℤ := y0 + 1
  let sx := smooth (x - (x0 : ℚ))
  let sy := smooth (y - (y0 : ℚ))
  let r0 := dotProductS st x0 y0 x y
  let r1 := dotProductS r0.2 x1 y0 x y
  let ix0 := interpolate r0.1 r1.1 sx
  let r2 := dotProductS r1.2 x0 y1 x y
  let r3 := dotProductS r2.2 x1 y1 x y
  let ix1 := interpolate r2.1 r3.1 sx
  (interpolate ix0 ix1 sy, r3.2)

/-- The octave loop of `PerlinNoise.noise`, threading the cache state. -/
def noiseAuxS (x y : ℚ) : ℕ → State → ℚ → ℚ → ℚ → ℚ → (ℚ × ℚ) × State
  | 0, st, total, _, _, maxValue => ((total, maxValue), st)
  | n + 1, st, total, frequency, amplitude, maxValue =>
      let r := rawNoiseS st (x * frequency) (y * frequency)
      noiseAuxS x y n r.2 (total + r.1 * amplitude) (frequency * 2) (amplitude * (1 / 2))
        (maxValue + amplitude)

/-- `PerlinNoise.noise` on an instance: returns the sampled value and the
instance state after the call. -/
def noiseS (st : State) (amplitude : ℚ) (x y : ℚ) : ℚ × State :=
  ((noiseAuxS x y 5 st 0 1 amplitude 0).1.1 / (noiseAuxS x y 5 st 0 1 amplitude 0).1.2,
    (noiseAuxS x y 5 st 0 1 amplitude 0).2)

/-- Cache well-formedness: every cached gradient is the hashed gradient of
its key for the instance seed.  A fresh instance (empty cache) is
well-formed, and every operation preserves this. -/
def WFState (st : State) : Prop :=
  ∀ k g, cacheLookup k st.cache = some g → g = getGradient st.seed k.1 k.2

end PerlinNoise

/-!
Blocks, chunks and the world.  `BlockType`/`BlockFactory` (imported by
`src/world/Chunk.ts` from `@/enums/BlockType` and `@/blocks/BlockFactory`,
files absent from the snapshot) are modelled from the spec: a material
enum Stone/Dirt/Grass/Water plus a debug Test type, and a factory that
builds a block from a material and a world position (the per-material
colors and opacities play no role in any claim).
-/
/-- Modelled from the spec: the block material enum `BlockType`
(spec section 3: "material type (enumerated: Stone, Dirt, Grass, Water,
plus any debug/test types)"). -/
inductive BlockType where
  | stone
  | dirt
  | grass
  | water
  | test
deriving DecidableEq

/-- A block: a material type and an immutable integer world position
(`Block` of `src/blocks/Block.ts`, reduced to the fields the claims
mention; the mesh/color data is rendering glue). -/
structure Block where
  blockType : BlockType
  pos : ℤ × ℤ × ℤ
deriving DecidableEq

/-- Modelled from the spec: `BlockFactory.createBlock` builds a block of
the requested material at the given position (spec section 9: a
switch-based factory per material; an unrecognized material fails fast,
which cannot happen for the closed enum here). -/
def createBlock (t : BlockType) (p : ℤ × ℤ × ℤ) : Block := ⟨t, p⟩

/-- The configuration constants the core imports at startup (spec
section 6).  They are parameters here because the snapshot's
`constants/world.ts` is an older revision that lacks them. -/
structure Config where
  seed : ℤ
  /-- `PERLIN_NOISE_AMPLITUDE` -/
  amplitude : ℚ
  /-- `PERLIN_NOISE_SCALE` -/
  scale : ℚ
  /-- `WORLD_SIZE.depth` -/
  depth : ℕ
  /-- `SEA_LEVEL` (typically `depth * 0.5`, an integer height) -/
  seaLevel : ℕ
  /-- `CHUNK_SIZE` -/
  chunkSize : ℕ
  /-- `WORLD_SIZE.size` -/
  worldSize : ℕ
deriving DecidableEq

namespace Chunk

/-- The continuous column height of `Chunk.generateTerrain`:
`((noise(worldX/scale, worldZ/scale) + 1) * .5) * WORLD_SIZE.depth`. -/
def colHeight (cfg : Config) (cpx cpz : ℤ) (x z : ℕ) : ℚ :=
  (PerlinNoise.noise cfg.seed cfg.amplitude (((cpx + x : ℤ) : ℚ) / cfg.scale)
      (((cpz + z : ℤ) : ℚ) / cfg.scale) + 1) * (1 / 2) * cfg.depth

/-- First generation pass: Stone at every integer `0 ≤ y < height`
(the loop `for (y = 0; y < height; y++)`). -/
def stoneGrid (cfg : Config) (cpx cpz : ℤ) (x y z : ℕ) : Option Block :=
  if (y : ℚ) < colHeight cfg cpx cpz x z then
    some (createBlock BlockType.stone (cpx + x, y, cpz + z))
  else none

/-- The downward search for the highest non-absent cell of a column
(`for (y = depth - 1; y >= 0; y--) { if (...!== null) { highestBlockY = y;
break; } }`, starting from `highestBlockY = 0`). -/
def highestAux (col : ℕ → Option Block) : ℕ → ℕ
  | 0 => 0
  | n + 1 => if (col n).isSome then n else highestAux col n

/-- `highestBlockY` for column `(x, z)` of the first-pass grid. -/
def highestBlockY (cfg : Config) (cpx cpz : ℤ) (x z : ℕ) : ℕ :=
  highestAux (fun y => stoneGrid cfg cpx cpz x y z) cfg.depth

/-- `Chunk.generateTerrain`, second pass folded in: if the column's
highest block is below sea level, every `y` from `highestBlockY` through
`SEA_LEVEL` is Water; otherwise the cell at `highestBlockY` becomes Grass
and, when `highestBlockY - 1 >= 0`, the cell beneath becomes Dirt; all
other cells keep the first-pass Stone/absent content. -/
def generateTerrain (cfg : Config) (cpx cpz : ℤ) (x y z : ℕ) : Option Block :=
  let h := highestBlockY cfg cpx cpz x z
  if h < cfg.seaLevel then
    if h ≤ y ∧ y ≤ cfg.seaLevel then
      some (createBlock BlockType.water (cpx + x, y, cpz + z))
    else stoneGrid cfg cpx cpz x y z
  else if y = h then some (createBlock BlockType.grass (cpx + x, y, cpz + z))
  else if 1 ≤ h ∧ y = h - 1 then some (createBlock BlockType.dirt (cpx + x, y, cpz + z))
  else stoneGrid cfg cpx cpz x y z

/-- `Chunk.getBlock`: `this.blocks[x]?.[y]?.[z]` — any out-of-range index
yields `undefined`, embedded as `none`. -/
def getBlock (cfg : Config) (cpx cpz : ℤ) (x y z : ℤ) : Option Block :=
  if 0 ≤ x ∧ x < (cfg.chunkSize : ℤ) ∧ 0 ≤ y ∧ y < (cfg.depth : ℤ) ∧
      0 ≤ z ∧ z < (cfg.chunkSize : ℤ) then
    generateTerrain cfg cpx cpz x.toNat y.toNat z.toNat
  else none

end Chunk

namespace World

/-- JavaScript `%` on integers is the truncated remainder (`Int.tmod`);
the source's non-negative modulo is
`((Math.floor(v) % CHUNK_SIZE) + CHUNK_SIZE) % CHUNK_SIZE`. -/
def jsMod (a n : ℤ) : ℤ := (a.tmod n + n).tmod n

/-- `World.getChunkIndexes`:
`floor(position / CHUNK_SIZE) + floor(WORLD_SIZE.size / 2)` per axis. -/
def getChunkIndexes (cfg : Config) (px pz : ℚ) : ℤ × ℤ :=
  (⌊px / (cfg.chunkSize : ℚ)⌋ + (cfg.worldSize / 2 : ℕ),
    ⌊pz / (cfg.chunkSize : ℚ)⌋ + (cfg.worldSize / 2 : ℕ))

/-- `World.isChunkInBoundaries`. -/
def isChunkInBoundaries (cfg : Config) (cx cz : ℤ) : Bool :=
  decide (0 ≤ cx) && decide (cx < (cfg.worldSize : ℤ)) &&
    decide (0 ≤ cz) && decide (cz < (cfg.worldSize : ℤ))

/-- The world-space anchor of the chunk at grid index `(cx, cz)`
(`World.createChunk`: `(x - halfworld) * CHUNK_SIZE`). -/
def chunkAnchor (cfg : Config) (cx cz : ℤ) : ℤ × ℤ :=
  ((cx - (cfg.worldSize / 2 : ℕ)) * cfg.chunkSize,
    (cz - (cfg.worldSize / 2 : ℕ)) * cfg.chunkSize)

/-- `World.getBlockAtPosition`: resolve the chunk (absent outside the
configured bounds), convert to local coordinates (non-negative modulo of
the floors for x/z, plain floor for y), and delegate to the chunk.  The
chunk consulted is the lazily created, terrain-generated chunk for that
grid index; chunk contents depend only on the anchor and the seed, so the
lazy cache is value-transparent. -/
def getBlockAtPosition (cfg : Config) (px py pz : ℚ) : Option Block :=
  let ci := getChunkIndexes cfg px pz
  if isChunkInBoundaries cfg ci.1 ci.2 then
    let cp := chunkAnchor cfg ci.1 ci.2
    Chunk.getBlock cfg cp.1 cp.2
      (jsMod ⌊px⌋ cfg.chunkSize) ⌊py⌋ (jsMod ⌊pz⌋ cfg.chunkSize)
  else none

end World

/-- Shared concrete configuration for witnesses: seed 0, amplitude 1,
scale 1, depth 4, sea level 2, chunk size 2, world size 4 chunks. -/
def cfgW : Config :=
  { seed := 0, amplitude := 1, scale := 1, depth := 4, seaLevel := 2,
    chunkSize := 2, worldSize := 4 }

namespace Chunk

/-- The six neighbor lookups of `Chunk.isBlockExposed`, in source order
(the source writes the third lookup as `this.getBlock(x, y - 1, + z)`; the
unary `+` is the identity on numbers, so the queried position is
`(x, y - 1, z)`).  `g` is the chunk's `getBlock`. -/
def neighbors (g : ℤ → ℤ → ℤ → Option Block) (x y z : ℤ) : List (Option Block) :=
  [g (x - 1) y z,
   g (x + 1) y z,
   g x (y - 1) z,
   g x (y + 1) z,
   g x y (z - 1),
   g x y (z + 1)]

/-- `Chunk.isBlockExposed`: `neighbors.some(block => !block)`. -/
def isBlockExposed (g : ℤ → ℤ → ℤ → Option Block) (x y z : ℤ) : Bool :=
  (neighbors g x y z).any fun b => b.isNone

/-- The six unit-axis offsets, each applied exactly once. -/
def axisOffsets : List (ℤ × ℤ × ℤ) :=
  [(-1, 0, 0), (1, 0, 0), (0, -1, 0), (0, 1, 0), (0, 0, -1), (0, 0, 1)]

/-- The mutable render state of a chunk: the fixed 3-D block array (by
local grid coordinate) and the set of blocks currently added to the scene
(`Renderable.addToScene` / `removeFromScene`), identified by grid
coordinate. -/
structure RenderChunk where
  blocks : ℕ → ℕ → ℕ → Option Block
  rendered : List (ℕ × ℕ × ℕ)

/-- `Renderable.addToScene`: add the object unless it is already among the
scene's children. -/
def addToScene (s : RenderChunk) (c : ℕ × ℕ × ℕ) : RenderChunk :=
  if c ∈ s.rendered then s else { s with rendered := c :: s.rendered }

/-- `Renderable.removeFromScene`: remove the object when present. -/
def removeFromScene (s : RenderChunk) (c : ℕ × ℕ × ℕ) : RenderChunk :=
  { s with rendered := s.rendered.erase c }

/-- The chunk's `getBlock` over the state's block array
(out-of-range gives `undefined`/`none`). -/
def gridBlocks (cfg : Config) (s : RenderChunk) (x y z : ℤ) : Option Block :=
  if 0 ≤ x ∧ x < (cfg.chunkSize : ℤ) ∧ 0 ≤ y ∧ y < (cfg.depth : ℤ) ∧
      0 ≤ z ∧ z < (cfg.chunkSize : ℤ) then
    s.blocks x.toNat y.toNat z.toNat
  else none

/-- The squared Euclidean distance between two points. -/
def distSq (p q : ℚ × ℚ × ℚ) : ℚ :=
  (p.1 - q.1) ^ 2 + (p.2.1 - q.2.1) ^ 2 + (p.2.2 - q.2.2) ^ 2

/-- `Chunk.isBlockInRenderDistance`:
`block.position.distanceTo(playerPosition) < RENDER_BLOCK_DISTANCE + 1`,
embedded in exact squared form (`√d < r ↔ 0 < r ∧ d < r²` for `d ≥ 0`). -/
def isBlockInRenderDistance (renderDist : ℚ) (b : Block) (playerPos : ℚ × ℚ × ℚ) : Bool :=
  decide (0 < renderDist + 1 ∧
    distSq ((b.pos.1 : ℚ), (b.pos.2.1 : ℚ), (b.pos.2.2 : ℚ)) playerPos < (renderDist + 1) ^ 2)

/-- The iteration domain of the triple `forEach` over the block array. -/
def allCoords (cfg : Config) : List (ℕ × ℕ × ℕ) :=
  (List.range cfg.chunkSize).bind fun x =>
    (List.range cfg.depth).bind fun y =>
      (List.range cfg.chunkSize).map fun z => (x, y, z)

/-- The per-cell body of `Chunk.updateRenderedBlocks`: a present block
that is exposed, within render distance and inside the frustum is added to
the scene; otherwise it is removed (absent cells do nothing). -/
def renderStep (cfg : Config) (renderDist : ℚ) (frustum : Block → Bool)
    (playerPos : ℚ × ℚ × ℚ) (acc : RenderChunk) (c : ℕ × ℕ × ℕ) : RenderChunk :=
  match acc.blocks c.1 c.2.1 c.2.2 with
  | some b =>
      if isBlockExposed (gridBlocks cfg acc) c.1 c.2.1 c.2.2 &&
          isBlockInRenderDistance renderDist b playerPos && frustum b then
        addToScene acc c
      else removeFromScene acc c
  | none => acc

/-- `Chunk.updateRenderedBlocks` (the frustum is the externally updated
camera predicate; its construction is rendering glue). -/
def updateRenderedBlocks (cfg : Config) (renderDist : ℚ) (frustum : Block → Bool)
    (playerPos : ℚ × ℚ × ℚ) (s : RenderChunk) : RenderChunk :=
  (allCoords cfg).foldl (renderStep cfg renderDist frustum playerPos) s

end Chunk

/-!
The player (`src/components/Player.ts`, latest revision): position,
vertical velocity, grounded and jumping flags.  The camera-derived
movement basis is passed in as direction vectors (the source zeroes the
forward direction's y component; the right direction is `up × forward`
with the default up vector `(0,1,0)`, so its y component is 0 as well —
theorems that need planar movement take that as a hypothesis).  The world
is the block query `getBlockAt`, a function from integer positions (the
player only ever queries integer coordinates). -/
structure Vec3 where
  x : ℚ
  y : ℚ
  z : ℚ
deriving DecidableEq

structure Box3 where
  min : Vec3
  max : Vec3
deriving DecidableEq

structure PlayerState where
  pos : Vec3
  velocityY : ℚ
  isGrounded : Bool
  isJumping : Bool
deriving DecidableEq

namespace Player

/-- `PLAYER_DIMENSIONS = { width: .5, height: 2, length: .5 }`. -/
def PLAYER_WIDTH : ℚ := 1 / 2

def PLAYER_HEIGHT : ℚ := 2

def PLAYER_LENGTH : ℚ := 1 / 2

/-- `BLOCK_SIZE = 1`. -/
def BLOCK_SIZE : ℚ := 1

/-- `PLAYER_VERTICAL_OFFSET = PLAYER_DIMENSIONS.height / 2 - BLOCK_SIZE / 2`. -/
def PLAYER_VERTICAL_OFFSET : ℚ := PLAYER_HEIGHT / 2 - BLOCK_SIZE / 2

/-- `JUMP_VELOCITY = .2`. -/
def JUMP_VELOCITY : ℚ := 1 / 5

/-- `PLAYER_BASE_SPEED = .1` (`this.speed`). -/
def PLAYER_BASE_SPEED : ℚ := 1 / 10

/-- `Player.getBoundingBox` (override): axis-aligned box from the current
position center and the player dimensions. -/
def getBoundingBox (p : Vec3) : Box3 :=
  ⟨⟨p.x - PLAYER_WIDTH / 2, p.y - PLAYER_HEIGHT / 2, p.z - PLAYER_LENGTH / 2⟩,
    ⟨p.x + PLAYER_WIDTH / 2, p.y + PLAYER_HEIGHT / 2, p.z + PLAYER_LENGTH / 2⟩⟩

/-- `Player.getNextPositionBoundingBox`: the current box translated by
`nextPosition - position`. -/
def getNextPositionBoundingBox (pos next : Vec3) : Box3 :=
  let d : Vec3 := ⟨next.x - pos.x, next.y - pos.y, next.z - pos.z⟩
  let b := getBoundingBox pos
  ⟨⟨b.min.x + d.x, b.min.y + d.y, b.min.z + d.z⟩,
    ⟨b.max.x + d.x, b.max.y + d.y, b.max.z + d.z⟩⟩

/-- JavaScript `Math.round` (half toward positive infinity). -/
def jsRound (t : ℚ) : ℤ := ⌊t + 1 / 2⌋

/-- The inclusive integer loop `for (let v = a; v <= b; v++)`. -/
def intRange (a b : ℤ) : List ℤ :=
  (List.range (b + 1 - a).toNat).map fun (i : ℕ) => a + (i : ℤ)

/-- `Player.getAllCollidingBlocks`: query every integer position with
x and z between the rounded box corners and y between the floor of the
bottom and the ceiling of the top, collecting the blocks found
(x outermost, then y, then z, in loop order). -/
def getAllCollidingBlocks (w : ℤ → ℤ → ℤ → Option Block) (box : Box3) : List Block :=
  (intRange (jsRound box.min.x) (jsRound box.max.x)).bind fun qx =>
    (intRange ⌊box.min.y⌋ ⌈box.max.y⌉).bind fun qy =>
      (intRange (jsRound box.min.z) (jsRound box.max.z)).filterMap fun qz => w qx qy qz

/-- `Player.isBelowBedrock`. -/
def isBelowBedrock (p : Vec3) : Bool := decide (p.y ≤ PLAYER_VERTICAL_OFFSET)

/-- `Player.handleBoundariesCollision`: the candidate box must stay inside
`[-worldSize/2 - BLOCK_SIZE/2, worldSize/2 - BLOCK_SIZE/2]` on x and z,
with `worldSize = WORLD_SIZE.size * CHUNK_SIZE`. -/
def handleBoundariesCollision (cs ws : ℕ) (pos next : Vec3) : Bool :=
  let box := getNextPositionBoundingBox pos next
  let worldSize : ℚ := ((ws * cs : ℕ) : ℚ)
  decide (box.min.x < -worldSize / 2 - BLOCK_SIZE / 2) ||
    decide (box.max.x > worldSize / 2 - BLOCK_SIZE / 2) ||
    decide (box.min.z < -worldSize / 2 - BLOCK_SIZE / 2) ||
    decide (box.max.z > worldSize / 2 - BLOCK_SIZE / 2)

/-- `Player.handleDirectionalCollision`: a colliding block strictly above
the candidate box's bottom face blocks the move. -/
def handleDirectionalCollision (w : ℤ → ℤ → ℤ → Option Block) (pos next : Vec3) : Bool :=
  let box := getNextPositionBoundingBox pos next
  let side := (getAllCollidingBlocks w box).filter fun b =>
    decide ((b.pos.2.1 : ℚ) > box.min.y)
  !side.isEmpty

/-- The candidate position of `Player.moveDirection`:
`position + direction * (speed * multiplier)`. -/
def nextPosition (pos : Vec3) (direction : Vec3) (multiplier : ℚ) : Vec3 :=
  ⟨pos.x + direction.x * (PLAYER_BASE_SPEED * multiplier),
    pos.y + direction.y * (PLAYER_BASE_SPEED * multiplier),
    pos.z + direction.z * (PLAYER_BASE_SPEED * multiplier)⟩

/-- `Player.moveDirection`: reject on world-boundary exit, then on side
collision, else accept the candidate. -/
def moveDirection (cs ws : ℕ) (w : ℤ → ℤ → ℤ → Option Block) (s : PlayerState)
    (direction : Vec3) (multiplier : ℚ) : PlayerState :=
  let next := nextPosition s.pos direction multiplier
  if handleBoundariesCollision cs ws s.pos next then s
  else if handleDirectionalCollision w s.pos next then s
  else { s with pos := next }

/-- `Player.jump`. -/
def jump (s : PlayerState) : PlayerState :=
  if !s.isGrounded || s.isJumping then s
  else { s with velocityY := JUMP_VELOCITY, isGrounded := false, isJumping := true }

/-- `Player.updateGroundedState`: zero-delta probe box; grounded iff some
colliding block sits at `Math.floor(box.min.y)` (the source compares the
block's y with the floor as numbers; block positions are integers) or the
position is below bedrock. -/
def updateGroundedState (w : ℤ → ℤ → ℤ → Option Block) (s : PlayerState) : PlayerState :=
  let box := getNextPositionBoundingBox s.pos s.pos
  let blocksBelow := (getAllCollidingBlocks w box).filter fun b =>
    decide (b.pos.2.1 = ⌊box.min.y⌋)
  { s with isGrounded := !blocksBelow.isEmpty || isBelowBedrock s.pos }

/-- `Player.handleFall`. -/
def handleFall (s : PlayerState) : PlayerState :=
  { s with isGrounded := false, pos := ⟨s.pos.x, s.pos.y + s.velocityY, s.pos.z⟩ }

/-- `Player.handleHitBedrock`. -/
def handleHitBedrock (s : PlayerState) : PlayerState :=
  { s with
    isGrounded := true
    velocityY := 0
    isJumping := false
    pos := ⟨s.pos.x, PLAYER_VERTICAL_OFFSET, s.pos.z⟩ }

/-- `Player.handleHitBlockBelow`. -/
def handleHitBlockBelow (s : PlayerState) (b : Block) : PlayerState :=
  { s with
    isGrounded := true
    velocityY := 0
    isJumping := false
    pos := ⟨s.pos.x, (b.pos.2.1 : ℚ) + 1 + PLAYER_VERTICAL_OFFSET, s.pos.z⟩ }

/-- The `belowCollidingBlocks` list of `Player.handleGroundCollision`:
colliding blocks of the candidate box strictly below its bottom face. -/
def belowCollidingBlocks (w : ℤ → ℤ → ℤ → Option Block) (s : PlayerState) : List Block :=
  let next : Vec3 := ⟨s.pos.x, s.pos.y + s.velocityY, s.pos.z⟩
  let nbox := getNextPositionBoundingBox s.pos next
  (getAllCollidingBlocks w nbox).filter fun b => decide ((b.pos.2.1 : ℚ) < nbox.min.y)

/-- `Player.handleGroundCollision`: ascending applies the velocity
unconditionally; otherwise bedrock, then the first block below, then
free fall. -/
def handleGroundCollision (w : ℤ → ℤ → ℤ → Option Block) (s : PlayerState) : PlayerState :=
  if s.velocityY > 0 then handleFall s
  else
    let next : Vec3 := ⟨s.pos.x, s.pos.y + s.velocityY, s.pos.z⟩
    if isBelowBedrock next then handleHitBedrock s
    else
      match belowCollidingBlocks w s with
      | [] => handleFall s
      | b :: _ => handleHitBlockBelow s b

/-- `Player.applyGravity`: grounded and not jumping zeroes the velocity;
otherwise add `GRAVITY`, clamp at `MAX_VELOCITY`, and resolve the ground
collision. -/
def applyGravity (G maxV : ℚ) (w : ℤ → ℤ → ℤ → Option Block) (s : PlayerState) : PlayerState :=
  if s.isGrounded && !s.isJumping then { s with velocityY := 0 }
  else
    let v0 := s.velocityY + G
    let v := if v0 > maxV then maxV else v0
    handleGroundCollision w { s with velocityY := v }

/-- `Player.move`, one simulation tick: key-driven horizontal moves and
jump (`handleKeyInputs`), grounded-state refresh, gravity. -/
def move (G maxV : ℚ) (cs ws : ℕ) (w : ℤ → ℤ → ℤ → Option Block)
    (moves : List (Vec3 × ℚ)) (jumpKey : Bool) (s : PlayerState) : PlayerState :=
  let s1 := moves.foldl (fun acc m => moveDirection cs ws w acc m.1 m.2) s
  let s2 := if jumpKey then jump s1 else s1
  let s3 := updateGroundedState w s2
  applyGravity G maxV w s3

end Player

/-- The empty world: no blocks anywhere. -/
def w0 : ℤ → ℤ → ℤ → Option Block := fun _ _ _ => none

/-- The single-block world for the C4 landing scenario: one solid block at
the origin. -/
def w1 : ℤ → ℤ → ℤ → Option Block := fun x y z =>
  if x = 0 ∧ y = 0 ∧ z = 0 then some (createBlock BlockType.stone (0, 0, 0)) else none

/-- The player spawn state: `PLAYER_SPAWN_POSITION = (0, 5, 0)`, at rest,
airborne. -/
def s0 : PlayerState := ⟨⟨0, 5, 0⟩, 0, false, false⟩

/-- A unit x-direction (planar). -/
def d1 : Vec3 := ⟨1, 0, 0⟩

def tick1 (s : PlayerState) : PlayerState := Player.move (-(1 / 4)) 0 2 4 w1 [] false s

def sSettled : PlayerState := ⟨⟨0, 3 / 2, 0⟩, 0, true, false⟩

namespace PerlinNoise

/-! Range analysis for C1. -/
theorem gradient_mem (seed ix iy : ℤ) : getGradient seed ix iy ∈ gradients :=
  List.get_mem _ _ _

theorem gradient_abs_le (seed ix iy : ℤ) :
    |((getGradient seed ix iy).1 : ℚ)| ≤ 1 ∧ |((getGradient seed ix iy).2 : ℚ)| ≤ 1 := by
  have h : getGradient seed ix iy ∈ gradients := gradient_mem seed ix iy
  set g := getGradient seed ix iy with hg
  clear_value g
  fin_cases h <;> norm_num

theorem smooth_nonneg {t : ℚ} (h0 : 0 ≤ t) (h1 : t ≤ 1) : 0 ≤ smooth t := by
  have hpos : 0 ≤ t * (t * 6 - 15) + 10 := by nlinarith [sq_nonneg (4 * t - 5)]
  have ht3 : 0 ≤ t * t * t := by positivity
  exact mul_nonneg ht3 hpos

theorem smooth_le_one {t : ℚ} (h0 : 0 ≤ t) (h1 : t ≤ 1) : smooth t ≤ 1 := by
  have ha : (0 : ℚ) ≤ 1 - t := by linarith
  have hb : (0 : ℚ) ≤ 6 * t * t + 3 * t + 1 := by nlinarith [sq_nonneg t]
  have key : 0 ≤ (1 - t) * (1 - t) * (1 - t) * (6 * t * t + 3 * t + 1) :=
    mul_nonneg (mul_nonneg (mul_nonneg ha ha) ha) hb
  unfold smooth
  nlinarith [key]

/-- The central polynomial bound: for `t ∈ [0,1]`,
`(1 − smooth t)·t + smooth t·(1 − t) ≤ 1/2`.  This is what makes every
raw-noise sample of the 8-gradient set stay inside `[-1, 1]`. -/
theorem smooth_mix_le_half {t : ℚ} (h0 : 0 ≤ t) (h1 : t ≤ 1) :
    (1 - smooth t) * t + smooth t * (1 - t) ≤ 1 / 2 := by
  have ht1 : (0 : ℚ) ≤ 1 - t := by linarith
  have hq : 0 ≤ t * (1 - t) := mul_nonneg h0 ht1
  have h2 : (0 : ℚ) ≤ 1 + 3 * t - 3 * t ^ 2 := by nlinarith [hq]
  have h3 : 0 ≤ 2 * t * (1 - t) * (1 + 3 * t - 3 * t ^ 2) := by
    have : (0 : ℚ) ≤ 2 * t := by linarith
    exact mul_nonneg (mul_nonneg this ht1) h2
  have h4 : (0 : ℚ) ≤ (1 - 2 * t) ^ 2 := sq_nonneg _
  have h5 : 0 ≤ (1 - 2 * t) ^ 2 * (2 * t * (1 - t) * (1 + 3 * t - 3 * t ^ 2)) :=
    mul_nonneg h4 h3
  unfold smooth
  nlinarith [h4, h5]

theorem abs_interpolate_le {a b s A B : ℚ} (ha : |a| ≤ A) (hb : |b| ≤ B)
    (hs0 : 0 ≤ s) (hs1 : s ≤ 1) : |interpolate a b s| ≤ (1 - s) * A + s * B := by
  have hrw : interpolate a b s = (1 - s) * a + s * b := by unfold interpolate; ring
  rw [hrw]
  calc |(1 - s) * a + s * b| ≤ |(1 - s) * a| + |s * b| := abs_add _ _
    _ = (1 - s) * |a| + s * |b| := by
        rw [abs_mul, abs_mul, abs_of_nonneg (by linarith : (0:ℚ) ≤ 1 - s), abs_of_nonneg hs0]
    _ ≤ (1 - s) * A + s * B := by
        have h1 : (1 - s) * |a| ≤ (1 - s) * A :=
          mul_le_mul_of_nonneg_left ha (by linarith)
        have h2 : s * |b| ≤ s * B := mul_le_mul_of_nonneg_left hb hs0
        linarith

theorem abs_dot_le (seed : ℤ) (ix iy : ℤ) (x y : ℚ) :
    |dotProduct seed ix iy x y| ≤ |x - (ix : ℚ)| + |y - (iy : ℚ)| := by
  obtain ⟨h1, h2⟩ := gradient_abs_le seed ix iy
  unfold dotProduct
  calc |((getGradient seed ix iy).1 : ℚ) * (x - (ix : ℚ)) +
        ((getGradient seed ix iy).2 : ℚ) * (y - (iy : ℚ))|
      ≤ |((getGradient seed ix iy).1 : ℚ) * (x - (ix : ℚ))| +
        |((getGradient seed ix iy).2 : ℚ) * (y - (iy : ℚ))| := abs_add _ _
    _ = |((getGradient seed ix iy).1 : ℚ)| * |x - (ix : ℚ)| +
        |((getGradient seed ix iy).2 : ℚ)| * |y - (iy : ℚ)| := by rw [abs_mul, abs_mul]
    _ ≤ 1 * |x - (ix : ℚ)| + 1 * |y - (iy : ℚ)| := by
        have := abs_nonneg (x - (ix : ℚ))
        have := abs_nonneg (y - (iy : ℚ))
        have ha := mul_le_mul_of_nonneg_right h1 (abs_nonneg (x - (ix : ℚ)))
        have hb := mul_le_mul_of_nonneg_right h2 (abs_nonneg (y - (iy : ℚ)))
        linarith
    _ = |x - (ix : ℚ)| + |y - (iy : ℚ)| := by ring

/-- The bilinear interpolation of four corner dot products, each bounded
by the corner's taxicab distance to the sample point, stays in `[-1, 1]`. -/
theorem interp_box_bound (n0 n1 n2 n3 u v : ℚ)
    (hu0 : 0 ≤ u) (hu1 : u ≤ 1) (hv0 : 0 ≤ v) (hv1 : v ≤ 1)
    (hn0 : |n0| ≤ u + v) (hn1 : |n1| ≤ (1 - u) + v)
    (hn2 : |n2| ≤ u + (1 - v)) (hn3 : |n3| ≤ (1 - u) + (1 - v)) :
    |interpolate (interpolate n0 n1 (smooth u)) (interpolate n2 n3 (smooth u)) (smooth v)| ≤ 1 := by
  have hsx0 : 0 ≤ smooth u := smooth_nonneg hu0 hu1
  have hsx1 : smooth u ≤ 1 := smooth_le_one hu0 hu1
  have hsy0 : 0 ≤ smooth v := smooth_nonneg hv0 hv1
  have hsy1 : smooth v ≤ 1 := smooth_le_one hv0 hv1
  have hix0 := abs_interpolate_le hn0 hn1 hsx0 hsx1
  have hix1 := abs_interpolate_le hn2 hn3 hsx0 hsx1
  have hfin := abs_interpolate_le hix0 hix1 hsy0 hsy1
  have hAu := smooth_mix_le_half hu0 hu1
  have hAv := smooth_mix_le_half hv0 hv1
  have hRiden : (1 - smooth v) * ((1 - smooth u) * (u + v) + smooth u * ((1 - u) + v)) +
      smooth v * ((1 - smooth u) * (u + (1 - v)) + smooth u * ((1 - u) + (1 - v))) =
      ((1 - smooth u) * u + smooth u * (1 - u)) +
        ((1 - smooth v) * v + smooth v * (1 - v)) := by ring
  refine le_trans hfin ?_
  rw [hRiden]
  linarith [hAu, hAv]

theorem abs_rawNoise_le_one (seed : ℤ) (x y : ℚ) : |rawNoise seed x y| ≤ 1 := by
  have hu0 : 0 ≤ x - (⌊x⌋ : ℚ) := by have := Int.floor_le x; linarith
  have hu1 : x - (⌊x⌋ : ℚ) ≤ 1 := by
    have := Int.lt_floor_add_one x; push_cast at this; linarith
  have hv0 : 0 ≤ y - (⌊y⌋ : ℚ) := by have := Int.floor_le y; linarith
  have hv1 : y - (⌊y⌋ : ℚ) ≤ 1 := by
    have := Int.lt_floor_add_one y; push_cast at this; linarith
  have habs_u : |x - (⌊x⌋ : ℚ)| = x - (⌊x⌋ : ℚ) := abs_of_nonneg hu0
  have habs_v : |y - (⌊y⌋ : ℚ)| = y - (⌊y⌋ : ℚ) := abs_of_nonneg hv0
  have hxs : x - ((⌊x⌋ + 1 : ℤ) : ℚ) = (x - (⌊x⌋ : ℚ)) - 1 := by push_cast; ring
  have hys : y - ((⌊y⌋ + 1 : ℤ) : ℚ) = (y - (⌊y⌋ : ℚ)) - 1 := by push_cast; ring
  have habs_u1 : |(x - (⌊x⌋ : ℚ)) - 1| = 1 - (x - (⌊x⌋ : ℚ)) := by
    rw [abs_of_nonpos (by linarith)]; ring
  have habs_v1 : |(y - (⌊y⌋ : ℚ)) - 1| = 1 - (y - (⌊y⌋ : ℚ)) := by
    rw [abs_of_nonpos (by linarith)]; ring
  have hn0 : |dotProduct seed ⌊x⌋ ⌊y⌋ x y| ≤ (x - (⌊x⌋ : ℚ)) + (y - (⌊y⌋ : ℚ)) := by
    have h := abs_dot_le seed ⌊x⌋ ⌊y⌋ x y
    rw [habs_u, habs_v] at h
    exact h
  have hn1 : |dotProduct seed (⌊x⌋ + 1) ⌊y⌋ x y| ≤ (1 - (x - (⌊x⌋ : ℚ))) + (y - (⌊y⌋ : ℚ)) := by
    have h := abs_dot_le seed (⌊x⌋ + 1) ⌊y⌋ x y
    rw [hxs, habs_u1, habs_v] at h
    exact h
  have hn2 : |dotProduct seed ⌊x⌋ (⌊y⌋ + 1) x y| ≤ (x - (⌊x⌋ : ℚ)) + (1 - (y - (⌊y⌋ : ℚ))) := by
    have h := abs_dot_le seed ⌊x⌋ (⌊y⌋ + 1) x y
    rw [hys, habs_u, habs_v1] at h
    exact h
  have hn3 : |dotProduct seed (⌊x⌋ + 1) (⌊y⌋ + 1) x y| ≤
      (1 - (x - (⌊x⌋ : ℚ))) + (1 - (y - (⌊y⌋ : ℚ))) := by
    have h := abs_dot_le seed (⌊x⌋ + 1) (⌊y⌋ + 1) x y
    rw [hxs, hys, habs_u1, habs_v1] at h
    exact h
  exact interp_box_bound _ _ _ _ _ _ hu0 hu1 hv0 hv1 hn0 hn1 hn2 hn3

theorem noiseAux_bound (seed : ℤ) (x y : ℚ) :
    ∀ (n : ℕ) (total frequency amplitude maxValue : ℚ), 0 < amplitude →
      |(noiseAux seed x y n total frequency amplitude maxValue).1 - total| ≤
        (noiseAux seed x y n total frequency amplitude maxValue).2 - maxValue ∧
      maxValue ≤ (noiseAux seed x y n total frequency amplitude maxValue).2 := by
  intro n
  induction n with
  | zero =>
      intro total frequency amplitude maxValue _
      simp [noiseAux]
  | succ k ih =>
      intro total frequency amplitude maxValue hamp
      have hhalf : 0 < amplitude * (1 / 2) := by linarith
      obtain ⟨h1, h2⟩ := ih (total + rawNoise seed (x * frequency) (y * frequency) * amplitude)
        (frequency * 2) (amplitude * (1 / 2)) (maxValue + amplitude) hhalf
      have hraw : |rawNoise seed (x * frequency) (y * frequency) * amplitude| ≤ amplitude := by
        rw [abs_mul, abs_of_pos hamp]
        have h := abs_rawNoise_le_one seed (x * frequency) (y * frequency)
        have := mul_le_mul_of_nonneg_right h (le_of_lt hamp)
        linarith
      have heq : noiseAux seed x y (k + 1) total frequency amplitude maxValue =
          noiseAux seed x y k
            (total + rawNoise seed (x * frequency) (y * frequency) * amplitude)
            (frequency * 2) (amplitude * (1 / 2)) (maxValue + amplitude) := rfl
      rw [heq]
      set A := noiseAux seed x y k
        (total + rawNoise seed (x * frequency) (y * frequency) * amplitude)
        (frequency * 2) (amplitude * (1 / 2)) (maxValue + amplitude) with hA
      constructor
      · have hdecomp : A.1 - total =
            (A.1 - (total + rawNoise seed (x * frequency) (y * frequency) * amplitude)) +
              rawNoise seed (x * frequency) (y * frequency) * amplitude := by ring
        calc |A.1 - total| = _ := by rw [hdecomp]
          _ ≤ |A.1 - (total + rawNoise seed (x * frequency) (y * frequency) * amplitude)| +
              |rawNoise seed (x * frequency) (y * frequency) * amplitude| := abs_add _ _
          _ ≤ A.2 - maxValue := by linarith
      · linarith

/-- C1: for every seed and all coordinates, the 5-octave noise value is in
the interval `[-1, 1]` (the amplitude parameter, the configured
`PERLIN_NOISE_AMPLITUDE`, is positive). -/
theorem noise_range (seed : ℤ) (amplitude x y : ℚ) (hamp : 0 < amplitude) :
    -1 ≤ noise seed amplitude x y ∧ noise seed amplitude x y ≤ 1 := by
  obtain ⟨h1, h2⟩ := noiseAux_bound seed x y 4
    (0 + rawNoise seed (x * 1) (y * 1) * amplitude) (1 * 2) (amplitude * (1 / 2))
    (0 + amplitude) (by linarith)
  have hraw : |rawNoise seed (x * 1) (y * 1) * amplitude| ≤ amplitude := by
    rw [abs_mul, abs_of_pos hamp]
    have h := abs_rawNoise_le_one seed (x * 1) (y * 1)
    have := mul_le_mul_of_nonneg_right h (le_of_lt hamp)
    linarith
  have hstep : noiseAux seed x y 5 0 1 amplitude 0 =
      noiseAux seed x y 4 (0 + rawNoise seed (x * 1) (y * 1) * amplitude)
        (1 * 2) (amplitude * (1 / 2)) (0 + amplitude) := rfl
  unfold noise
  rw [hstep]
  set A := noiseAux seed x y 4 (0 + rawNoise seed (x * 1) (y * 1) * amplitude)
    (1 * 2) (amplitude * (1 / 2)) (0 + amplitude) with hA
  have hApos : 0 < A.2 := by linarith
  have habs : |A.1| ≤ A.2 := by
    have habs0 : |0 + rawNoise seed (x * 1) (y * 1) * amplitude| ≤ amplitude := by
      rw [zero_add]; exact hraw
    have htri := abs_add (A.1 - (0 + rawNoise seed (x * 1) (y * 1) * amplitude))
      (0 + rawNoise seed (x * 1) (y * 1) * amplitude)
    have heq : A.1 - (0 + rawNoise seed (x * 1) (y * 1) * amplitude) +
        (0 + rawNoise seed (x * 1) (y * 1) * amplitude) = A.1 := by ring
    rw [heq] at htri
    linarith
  have hle : |A.1 / A.2| ≤ 1 := by
    rw [abs_div, abs_of_pos hApos, div_le_one hApos]
    exact habs
  exact abs_le.1 hle

/-- Witness for C1 at seed 42, amplitude 1, coordinates (4, 12). -/
theorem noise_range_witness :
    (0 : ℚ) < 1 ∧ (-1 ≤ noise 42 1 4 12 ∧ noise 42 1 4 12 ≤ 1) :=
  ⟨one_pos, noise_range 42 1 4 12 one_pos⟩

theorem getGradientS_spec (st : State) (ix iy : ℤ) (hwf : WFState st) :
    (getGradientS st ix iy).1 = getGradient st.seed ix iy ∧
      (getGradientS st ix iy).2.seed = st.seed ∧ WFState (getGradientS st ix iy).2 := by
  cases hc : cacheLookup (ix, iy) st.cache with
  | some g =>
      have hEq : getGradientS st ix iy = (g, st) := by simp only [getGradientS, hc]
      rw [hEq]
      exact ⟨hwf (ix, iy) g hc, rfl, hwf⟩
  | none =>
      have hEq : getGradientS st ix iy = (getGradient st.seed ix iy,
          ⟨st.seed, ((ix, iy), getGradient st.seed ix iy) :: st.cache⟩) := by
        simp only [getGradientS, hc]
      rw [hEq]
      refine ⟨rfl, rfl, ?_⟩
      intro k g hk
      simp only [cacheLookup] at hk
      split_ifs at hk with heq
      · cases hk
        rw [← heq]
      · exact hwf k g hk

theorem dotProductS_spec (st : State) (ix iy : ℤ) (x y : ℚ) (hwf : WFState st) :
    (dotProductS st ix iy x y).1 = dotProduct st.seed ix iy x y ∧
      (dotProductS st ix iy x y).2.seed = st.seed ∧ WFState (dotProductS st ix iy x y).2 := by
  obtain ⟨h1, h2, h3⟩ := getGradientS_spec st ix iy hwf
  refine ⟨?_, h2, h3⟩
  simp only [dotProductS, dotProduct, h1]

theorem rawNoiseS_spec (st : State) (x y : ℚ) (hwf : WFState st) :
    (rawNoiseS st x y).1 = rawNoise st.seed x y ∧
      (rawNoiseS st x y).2.seed = st.seed ∧ WFState (rawNoiseS st x y).2 := by
  obtain ⟨e0, s0, w0⟩ := dotProductS_spec st ⌊x⌋ ⌊y⌋ x y hwf
  obtain ⟨e1, s1, w1⟩ :=
    dotProductS_spec (dotProductS st ⌊x⌋ ⌊y⌋ x y).2 (⌊x⌋ + 1) ⌊y⌋ x y w0
  obtain ⟨e2, s2, w2⟩ :=
    dotProductS_spec (dotProductS (dotProductS st ⌊x⌋ ⌊y⌋ x y).2 (⌊x⌋ + 1) ⌊y⌋ x y).2
      ⌊x⌋ (⌊y⌋ + 1) x y w1
  obtain ⟨e3, s3, w3⟩ :=
    dotProductS_spec
      (dotProductS (dotProductS (dotProductS st ⌊x⌋ ⌊y⌋ x y).2 (⌊x⌋ + 1) ⌊y⌋ x y).2
        ⌊x⌋ (⌊y⌋ + 1) x y).2 (⌊x⌋ + 1) (⌊y⌋ + 1) x y w2
  rw [s0] at e1 s1
  rw [s1] at e2 s2
  rw [s2] at e3 s3
  refine ⟨?_, ?_, w3⟩
  · simp only [rawNoiseS, rawNoise, e0, e1, e2, e3]
  · simp only [rawNoiseS, s3]

theorem noiseAuxS_spec (x y : ℚ) :
    ∀ (n : ℕ) (st : State) (total frequency amplitude maxValue : ℚ), WFState st →
      (noiseAuxS x y n st total frequency amplitude maxValue).1 =
        noiseAux st.seed x y n total frequency amplitude maxValue ∧
      (noiseAuxS x y n st total frequency amplitude maxValue).2.seed = st.seed ∧
      WFState (noiseAuxS x y n st total frequency amplitude maxValue).2 := by
  intro n
  induction n with
  | zero => intro st total frequency amplitude maxValue hwf; exact ⟨rfl, rfl, hwf⟩
  | succ k ih =>
      intro st total frequency amplitude maxValue hwf
      obtain ⟨re, rs, rwf⟩ := rawNoiseS_spec st (x * frequency) (y * frequency) hwf
      obtain ⟨ae, as, aw⟩ := ih (rawNoiseS st (x * frequency) (y * frequency)).2
        (total + rawNoise st.seed (x * frequency) (y * frequency) * amplitude)
        (frequency * 2) (amplitude * (1 / 2)) (maxValue + amplitude) rwf
      rw [rs] at ae as
      refine ⟨?_, ?_, ?_⟩
      · simp only [noiseAuxS, noiseAux, re]
        exact ae
      · simp only [noiseAuxS, re]
        exact as
      · simp only [noiseAuxS, re]
        exact aw

/-- C6: noise sampling is referentially stable and seed-deterministic.  On
any well-formed instance state the sampled value is the pure function
`noise` of the seed alone; the call leaves the seed unchanged and the
cache well-formed, so a second call on the same instance returns the
identical value, and a fresh instance built from the same seed (empty
cache) also returns the identical value: the memoized append-only
gradient cache never changes any result. -/
theorem noiseS_deterministic (st : State) (amplitude x y : ℚ) (hwf : WFState st) :
    (noiseS st amplitude x y).1 = noise st.seed amplitude x y ∧
      (noiseS (noiseS st amplitude x y).2 amplitude x y).1 = (noiseS st amplitude x y).1 ∧
      (noiseS ⟨st.seed, []⟩ amplitude x y).1 = (noiseS st amplitude x y).1 := by
  have hpure : ∀ (s : State), WFState s →
      (noiseS s amplitude x y).1 = noise s.seed amplitude x y := by
    intro s hs
    obtain ⟨e, _, _⟩ := noiseAuxS_spec x y 5 s 0 1 amplitude 0 hs
    simp only [noiseS, noise, e]
  have hempty : WFState ⟨st.seed, []⟩ := fun _ _ hk => Option.noConfusion hk
  obtain ⟨_, hseed, hwf2⟩ := noiseAuxS_spec x y 5 st 0 1 amplitude 0 hwf
  have hsnd : (noiseS st amplitude x y).2 = (noiseAuxS x y 5 st 0 1 amplitude 0).2 := by
    simp only [noiseS]
  have hseed2 : (noiseS st amplitude x y).2.seed = st.seed := by rw [hsnd]; exact hseed
  have hwf3 : WFState (noiseS st amplitude x y).2 := by rw [hsnd]; exact hwf2
  refine ⟨hpure st hwf, ?_, ?_⟩
  · rw [hpure _ hwf3, hseed2, hpure st hwf]
  · rw [hpure _ hempty, hpure st hwf]

/-- Witness for C6: a fresh seed-42 instance sampled at (4, 12). -/
theorem noiseS_deterministic_witness :
    WFState ⟨42, []⟩ ∧
      ((noiseS ⟨42, []⟩ 1 4 12).1 = noise (42 : ℤ) 1 4 12 ∧
        (noiseS (noiseS ⟨42, []⟩ 1 4 12).2 1 4 12).1 = (noiseS ⟨42, []⟩ 1 4 12).1 ∧
        (noiseS ⟨(42 : ℤ), []⟩ 1 4 12).1 = (noiseS ⟨42, []⟩ 1 4 12).1) :=
  ⟨fun _ _ hk => Option.noConfusion hk,
    noiseS_deterministic ⟨42, []⟩ 1 4 12 (fun _ _ hk => Option.noConfusion hk)⟩

end PerlinNoise

namespace Chunk

theorem stoneGrid_pos (cfg : Config) (cpx cpz : ℤ) (x y z : ℕ) (b : Block)
    (h : stoneGrid cfg cpx cpz x y z = some b) : b.pos = (cpx + x, (y : ℤ), cpz + z) := by
  unfold stoneGrid at h
  split_ifs at h
  cases h
  rfl

theorem stoneGrid_stone (cfg : Config) (cpx cpz : ℤ) (x y z : ℕ) (b : Block)
    (h : stoneGrid cfg cpx cpz x y z = some b) : b.blockType = BlockType.stone := by
  unfold stoneGrid at h
  split_ifs at h
  cases h
  rfl

theorem generateTerrain_pos (cfg : Config) (cpx cpz : ℤ) (x y z : ℕ) (b : Block)
    (h : generateTerrain cfg cpx cpz x y z = some b) :
    b.pos = (cpx + x, (y : ℤ), cpz + z) := by
  simp only [generateTerrain] at h
  split_ifs at h with h1 h2 h3 h4
  · cases h; rfl
  · exact stoneGrid_pos cfg cpx cpz x y z b h
  · cases h; rfl
  · cases h; rfl
  · exact stoneGrid_pos cfg cpx cpz x y z b h

end Chunk

namespace World

theorem jsMod_eq_emod (a : ℤ) {n : ℤ} (hn : 0 < n) : jsMod a n = a % n := by
  have hlt : a.tmod n < n := Int.tmod_lt_of_pos a hn
  have hneg : Int.tmod (-a) n = -Int.tmod a n := by
    simp only [Int.tmod_def, Int.neg_tdiv]; ring
  have hlow : -n < a.tmod n := by
    have h := Int.tmod_lt_of_pos (-a) hn
    rw [hneg] at h
    linarith
  have hnn : 0 ≤ a.tmod n + n := by linarith
  unfold jsMod
  rw [Int.tmod_eq_emod hnn (le_of_lt hn), Int.tmod_def]
  have hre : a - n * a.tdiv n + n = a + n * (1 - a.tdiv n) := by ring
  rw [hre, Int.add_mul_emod_self_left]

theorem floor_div_nat_cast (a : ℚ) {n : ℕ} (hn : 0 < n) :
    ⌊a / (n : ℚ)⌋ = ⌊a⌋ / (n : ℤ) := by
  have hq : (0 : ℚ) < n := by exact_mod_cast hn
  rw [Int.floor_eq_iff]
  constructor
  · rw [le_div_iff₀ hq]
    have h1 : (⌊a⌋ / (n : ℤ)) * (n : ℤ) ≤ ⌊a⌋ := Int.ediv_mul_le ⌊a⌋ (by positivity)
    calc ((⌊a⌋ / (n : ℤ) : ℤ) : ℚ) * (n : ℚ) = ((⌊a⌋ / (n : ℤ) * (n : ℤ) : ℤ) : ℚ) := by
          push_cast; ring
      _ ≤ ((⌊a⌋ : ℤ) : ℚ) := by exact_mod_cast h1
      _ ≤ a := Int.floor_le a
  · rw [div_lt_iff₀ hq]
    have hz : (0 : ℤ) < n := by exact_mod_cast hn
    have h2 : ⌊a⌋ + 1 ≤ (⌊a⌋ / (n : ℤ) + 1) * (n : ℤ) := by
      have hm := Int.emod_lt_of_pos ⌊a⌋ hz
      have hdm := Int.ediv_add_emod ⌊a⌋ (n : ℤ)
      nlinarith [hdm, hm]
    have h3 : a < (⌊a⌋ : ℚ) + 1 := Int.lt_floor_add_one a
    have h4 : ((⌊a⌋ : ℤ) : ℚ) + 1 ≤ ((⌊a⌋ / (n : ℤ) + 1 : ℤ) : ℚ) * (n : ℚ) := by
      have := h2
      push_cast
      exact_mod_cast h2
    push_cast at h4 ⊢
    linarith

/-- The local x (or z) index recombines with the chunk anchor to the floor
of the world coordinate. -/
theorem anchor_add_jsMod (cfg : Config) (p : ℚ) (hcs : 0 < cfg.chunkSize) :
    ((⌊p / (cfg.chunkSize : ℚ)⌋ + (cfg.worldSize / 2 : ℕ)) - (cfg.worldSize / 2 : ℕ)) *
        cfg.chunkSize + jsMod ⌊p⌋ cfg.chunkSize = ⌊p⌋ := by
  have hz : (0 : ℤ) < cfg.chunkSize := by exact_mod_cast hcs
  rw [jsMod_eq_emod _ hz, floor_div_nat_cast p hcs]
  have h := Int.ediv_add_emod ⌊p⌋ (cfg.chunkSize : ℤ)
  ring_nf at h ⊢
  linarith [h]

/-- C2: for every world position whose chunk indices lie inside the world
bounds (negative coordinates included), `getBlockAtPosition` returns
exactly the block the generated chunk stores at the local indices
(non-negative modulo of the floors for x/z, plain floor for y), and any
returned block's world position is the componentwise floor of the queried
position. -/
theorem getBlockAtPosition_spec (cfg : Config) (px py pz : ℚ) (hcs : 0 < cfg.chunkSize)
    (hin : isChunkInBoundaries cfg (getChunkIndexes cfg px pz).1
      (getChunkIndexes cfg px pz).2 = true) :
    getBlockAtPosition cfg px py pz =
      Chunk.getBlock cfg
        (chunkAnchor cfg (getChunkIndexes cfg px pz).1 (getChunkIndexes cfg px pz).2).1
        (chunkAnchor cfg (getChunkIndexes cfg px pz).1 (getChunkIndexes cfg px pz).2).2
        (jsMod ⌊px⌋ cfg.chunkSize) ⌊py⌋ (jsMod ⌊pz⌋ cfg.chunkSize) ∧
      ∀ b, getBlockAtPosition cfg px py pz = some b → b.pos = (⌊px⌋, ⌊py⌋, ⌊pz⌋) := by
  have hEq : getBlockAtPosition cfg px py pz =
      Chunk.getBlock cfg
        (chunkAnchor cfg (getChunkIndexes cfg px pz).1 (getChunkIndexes cfg px pz).2).1
        (chunkAnchor cfg (getChunkIndexes cfg px pz).1 (getChunkIndexes cfg px pz).2).2
        (jsMod ⌊px⌋ cfg.chunkSize) ⌊py⌋ (jsMod ⌊pz⌋ cfg.chunkSize) := by
    simp only [getBlockAtPosition, hin, if_true]
  refine ⟨hEq, ?_⟩
  intro b hb
  rw [hEq] at hb
  unfold Chunk.getBlock at hb
  split_ifs at hb with hrange
  obtain ⟨hx0, hx1, hy0, hy1, hz0, hz1⟩ := hrange
  have hp := Chunk.generateTerrain_pos cfg _ _ _ _ _ b hb
  rw [hp]
  rw [Int.toNat_of_nonneg hx0, Int.toNat_of_nonneg hy0, Int.toNat_of_nonneg hz0]
  have hax := anchor_add_jsMod cfg px hcs
  have haz := anchor_add_jsMod cfg pz hcs
  simp only [chunkAnchor, getChunkIndexes, Prod.mk.injEq]
  exact ⟨hax, trivial, haz⟩

end World

/-- Witness for C2 at the negative-coordinate position
(px, py, pz) = (-3/2, 1/2, 1/2). -/
theorem getBlockAtPosition_spec_witness :
    (0 < cfgW.chunkSize ∧
      World.isChunkInBoundaries cfgW (World.getChunkIndexes cfgW (-3/2) (1/2)).1
        (World.getChunkIndexes cfgW (-3/2) (1/2)).2 = true) ∧
      (World.getBlockAtPosition cfgW (-3/2) (1/2) (1/2) =
        Chunk.getBlock cfgW
          (World.chunkAnchor cfgW (World.getChunkIndexes cfgW (-3/2) (1/2)).1
            (World.getChunkIndexes cfgW (-3/2) (1/2)).2).1
          (World.chunkAnchor cfgW (World.getChunkIndexes cfgW (-3/2) (1/2)).1
            (World.getChunkIndexes cfgW (-3/2) (1/2)).2).2
          (World.jsMod ⌊(-3/2 : ℚ)⌋ cfgW.chunkSize) ⌊(1/2 : ℚ)⌋
          (World.jsMod ⌊(1/2 : ℚ)⌋ cfgW.chunkSize) ∧
        ∀ b, World.getBlockAtPosition cfgW (-3/2) (1/2) (1/2) = some b →
          b.pos = (⌊(-3/2 : ℚ)⌋, ⌊(1/2 : ℚ)⌋, ⌊(1/2 : ℚ)⌋)) := by
  have h1 : 0 < cfgW.chunkSize := by norm_num [cfgW]
  have h2 : World.isChunkInBoundaries cfgW (World.getChunkIndexes cfgW (-3/2) (1/2)).1
      (World.getChunkIndexes cfgW (-3/2) (1/2)).2 = true := by
    have hx : ⌊(-3/2 : ℚ) / ((2:ℕ) : ℚ)⌋ = -1 := by
      rw [Int.floor_eq_iff] <;> norm_num
    have hz : ⌊(1/2 : ℚ) / ((2:ℕ) : ℚ)⌋ = 0 := by
      rw [Int.floor_eq_iff] <;> norm_num
    simp only [World.isChunkInBoundaries, World.getChunkIndexes, cfgW, hx, hz]
    decide
  exact ⟨⟨h1, h2⟩, World.getBlockAtPosition_spec cfgW (-3/2) (1/2) (1/2) h1 h2⟩

namespace PerlinNoise

theorem smooth_zero : smooth 0 = 0 := by norm_num [smooth]

theorem interpolate_zero (a b : ℚ) : interpolate a b 0 = a := by simp [interpolate]

theorem dotProduct_self (seed a b : ℤ) : dotProduct seed a b (a : ℚ) (b : ℚ) = 0 := by
  simp [dotProduct]

/-- At integer lattice coordinates the raw noise vanishes: the smoothing
weights are zero, so the sample reduces to the dot product at the exact
lattice point, which is zero. -/
theorem rawNoise_intCast (seed a b : ℤ) : rawNoise seed (a : ℚ) (b : ℚ) = 0 := by
  simp only [rawNoise, Int.floor_intCast, sub_self, smooth_zero, interpolate_zero,
    dotProduct_self]

theorem noiseAux_intCast (seed a b : ℤ) :
    ∀ (n : ℕ) (f : ℤ) (total amplitude maxValue : ℚ),
      (noiseAux seed (a : ℚ) (b : ℚ) n total (f : ℚ) amplitude maxValue).1 = total := by
  intro n
  induction n with
  | zero => intro f total amplitude maxValue; rfl
  | succ k ih =>
      intro f total amplitude maxValue
      have h1 : (a : ℚ) * (f : ℚ) = ((a * f : ℤ) : ℚ) := by push_cast; ring
      have h2 : (b : ℚ) * (f : ℚ) = ((b * f : ℤ) : ℚ) := by push_cast; ring
      have h3 : (f : ℚ) * 2 = ((f * 2 : ℤ) : ℚ) := by push_cast; ring
      show (noiseAux seed (a : ℚ) (b : ℚ) k
          (total + rawNoise seed ((a : ℚ) * (f : ℚ)) ((b : ℚ) * (f : ℚ)) * amplitude)
          ((f : ℚ) * 2) (amplitude * (1 / 2)) (maxValue + amplitude)).1 = total
      rw [h1, h2, h3, rawNoise_intCast, zero_mul, add_zero]
      exact ih (f * 2) total _ _

/-- Noise at integer coordinates is zero (whatever the seed or
amplitude). -/
theorem noise_intCast (seed : ℤ) (amplitude : ℚ) (a b : ℤ) :
    noise seed amplitude (a : ℚ) (b : ℚ) = 0 := by
  unfold noise
  have h := noiseAux_intCast seed a b 5 1 0 amplitude 0
  rw [show ((1 : ℤ) : ℚ) = (1 : ℚ) from Int.cast_one] at h
  rw [h, zero_div]

end PerlinNoise

namespace Chunk

/-- C3: per column, the second pass floods with Water every height from
`highestBlockY` through `SEA_LEVEL` exactly when `highestBlockY` is below
sea level; otherwise no water is placed, the top cell becomes Grass and
the cell directly beneath (when `highestBlockY ≥ 1`) becomes Dirt; and a
fully empty first-pass column has `highestBlockY = 0` (hence is flooded
whenever `SEA_LEVEL > 0`). -/
theorem generateTerrain_column_spec (cfg : Config) (cpx cpz : ℤ) (x z : ℕ) :
    (highestBlockY cfg cpx cpz x z < cfg.seaLevel →
      ∀ y, highestBlockY cfg cpx cpz x z ≤ y → y ≤ cfg.seaLevel →
        generateTerrain cfg cpx cpz x y z =
          some (createBlock BlockType.water (cpx + x, y, cpz + z))) ∧
    (¬ highestBlockY cfg cpx cpz x z < cfg.seaLevel →
      (∀ y b, generateTerrain cfg cpx cpz x y z = some b →
        b.blockType ≠ BlockType.water) ∧
      generateTerrain cfg cpx cpz x (highestBlockY cfg cpx cpz x z) z =
        some (createBlock BlockType.grass
          (cpx + x, (highestBlockY cfg cpx cpz x z : ℤ), cpz + z)) ∧
      (1 ≤ highestBlockY cfg cpx cpz x z →
        generateTerrain cfg cpx cpz x (highestBlockY cfg cpx cpz x z - 1) z =
          some (createBlock BlockType.dirt
            (cpx + x, ((highestBlockY cfg cpx cpz x z - 1 : ℕ) : ℤ), cpz + z)))) ∧
    ((∀ y, y < cfg.depth → stoneGrid cfg cpx cpz x y z = none) →
      highestBlockY cfg cpx cpz x z = 0) := by
  refine ⟨?_, ?_, ?_⟩
  · intro hflood y hy1 hy2
    simp only [generateTerrain]
    rw [if_pos hflood, if_pos ⟨hy1, hy2⟩]
  · intro hdry
    refine ⟨?_, ?_, ?_⟩
    · intro y b hb
      simp only [generateTerrain] at hb
      rw [if_neg hdry] at hb
      split_ifs at hb with h1 h2
      · cases hb; simp [createBlock]
      · cases hb; simp [createBlock]
      · have := stoneGrid_stone cfg cpx cpz x y z b hb
        rw [this]
        simp
    · simp only [generateTerrain]
      rw [if_neg hdry]
      simp
    · intro h1
      simp only [generateTerrain]
      rw [if_neg hdry]
      have hne : ¬ highestBlockY cfg cpx cpz x z - 1 = highestBlockY cfg cpx cpz x z := by
        omega
      rw [if_neg hne]
      simp [h1]
  · intro hempty
    unfold highestBlockY
    have hall : ∀ n, n ≤ cfg.depth →
        highestAux (fun y => stoneGrid cfg cpx cpz x y z) n = 0 := by
      intro n
      induction n with
      | zero => intro _; rfl
      | succ k ih =>
          intro hk
          have hkd : k < cfg.depth := hk
          simp only [highestAux, hempty k hkd, Option.isSome_none, Bool.false_eq_true,
            if_false]
          exact ih (le_of_lt hkd)
    exact hall cfg.depth le_rfl

end Chunk

/-- Witness for C3: in the shared witness configuration the column (0,0)
of the origin chunk has highest first-pass block at y = 1, below sea
level 2, and is flooded at height 2. -/
theorem generateTerrain_column_spec_witness :
    Chunk.highestBlockY cfgW 0 0 0 0 < cfgW.seaLevel ∧
      Chunk.generateTerrain cfgW 0 0 0 2 0 =
        some (createBlock BlockType.water
          ((0 : ℤ) + ((0 : ℕ) : ℤ), ((2 : ℕ) : ℤ), (0 : ℤ) + ((0 : ℕ) : ℤ))) := by
  have hnz : PerlinNoise.noise 0 1 0 0 = 0 := by
    simpa using PerlinNoise.noise_intCast 0 1 0 0
  have hch : Chunk.colHeight cfgW 0 0 0 0 = 2 := by
    simp only [Chunk.colHeight, cfgW]
    norm_num [hnz]
  have hd : cfgW.depth = 4 := rfl
  have hhb : Chunk.highestBlockY cfgW 0 0 0 0 = 1 := by
    simp only [Chunk.highestBlockY, hd, Chunk.highestAux, Chunk.stoneGrid, hch]
    norm_num
  have hflood : Chunk.highestBlockY cfgW 0 0 0 0 < cfgW.seaLevel := by
    rw [hhb]; decide
  refine ⟨hflood, ?_⟩
  exact (Chunk.generateTerrain_column_spec cfgW 0 0 0 0).1 hflood 2
    (by rw [hhb]; decide) (by decide)

namespace Chunk

/-- C5: `isBlockExposed` holds iff at least one of the six unit-axis
neighbor positions — each offset applied exactly once — holds no block
(out-of-grid lookups return `none` by `Chunk.getBlock`). -/
theorem isBlockExposed_iff (cfg : Config) (cpx cpz : ℤ) (x y z : ℤ) :
    isBlockExposed (getBlock cfg cpx cpz) x y z = true ↔
      ∃ d ∈ axisOffsets,
        getBlock cfg cpx cpz (x + d.1) (y + d.2.1) (z + d.2.2) = none := by
  simp only [isBlockExposed, neighbors, axisOffsets, List.any_eq_true, List.mem_cons,
    List.not_mem_nil, or_false, Option.isNone_iff_eq_none]
  constructor
  · rintro ⟨b, hmem, hnone⟩
    subst hnone
    rcases hmem with h | h | h | h | h | h
    · exact ⟨(-1, 0, 0), by norm_num, by simpa using h.symm⟩
    · exact ⟨(1, 0, 0), by norm_num, by simpa using h.symm⟩
    · exact ⟨(0, -1, 0), by norm_num, by simpa using h.symm⟩
    · exact ⟨(0, 1, 0), by norm_num, by simpa using h.symm⟩
    · exact ⟨(0, 0, -1), by norm_num, by simpa using h.symm⟩
    · exact ⟨(0, 0, 1), by norm_num, by simpa using h.symm⟩
  · rintro ⟨d, hmem, hnone⟩
    rcases hmem with h | h | h | h | h | h <;> subst h
    · exact ⟨getBlock cfg cpx cpz (x - 1) y z, Or.inl rfl, by simpa using hnone⟩
    · exact ⟨getBlock cfg cpx cpz (x + 1) y z, Or.inr (Or.inl rfl), by simpa using hnone⟩
    · exact ⟨getBlock cfg cpx cpz x (y - 1) z, Or.inr (Or.inr (Or.inl rfl)),
        by simpa using hnone⟩
    · exact ⟨getBlock cfg cpx cpz x (y + 1) z, Or.inr (Or.inr (Or.inr (Or.inl rfl))),
        by simpa using hnone⟩
    · exact ⟨getBlock cfg cpx cpz x y (z - 1),
        Or.inr (Or.inr (Or.inr (Or.inr (Or.inl rfl)))), by simpa using hnone⟩
    · exact ⟨getBlock cfg cpx cpz x y (z + 1),
        Or.inr (Or.inr (Or.inr (Or.inr (Or.inr rfl)))), by simpa using hnone⟩

theorem renderStep_blocks (cfg : Config) (renderDist : ℚ) (frustum : Block → Bool)
    (playerPos : ℚ × ℚ × ℚ) (acc : RenderChunk) (c : ℕ × ℕ × ℕ) :
    (renderStep cfg renderDist frustum playerPos acc c).blocks = acc.blocks := by
  unfold renderStep
  cases acc.blocks c.1 c.2.1 c.2.2 with
  | none => rfl
  | some b =>
      simp only
      split_ifs with h
      · unfold addToScene
        split_ifs <;> rfl
      · rfl

/-- C9: `updateRenderedBlocks` only adds blocks to or removes blocks from
the render set; the chunk's 3-D block array — which cells hold a block,
and each block's material type and world position — is exactly the same
after the call as before it. -/
theorem updateRenderedBlocks_frame (cfg : Config) (renderDist : ℚ) (frustum : Block → Bool)
    (playerPos : ℚ × ℚ × ℚ) (s : RenderChunk) :
    (updateRenderedBlocks cfg renderDist frustum playerPos s).blocks = s.blocks := by
  unfold updateRenderedBlocks
  generalize allCoords cfg = l
  induction l generalizing s with
  | nil => rfl
  | cons c tl ih =>
      simp only [List.foldl_cons]
      rw [ih (renderStep cfg renderDist frustum playerPos s c),
        renderStep_blocks cfg renderDist frustum playerPos s c]

end Chunk

namespace Player

theorem mem_intRange {a b v : ℤ} : v ∈ intRange a b ↔ a ≤ v ∧ v ≤ b := by
  unfold intRange
  rw [List.mem_map]
  constructor
  · rintro ⟨i, hi, rfl⟩
    rw [List.mem_range, Int.lt_toNat] at hi
    omega
  · rintro ⟨h1, h2⟩
    refine ⟨(v - a).toNat, ?_, ?_⟩
    · rw [List.mem_range, Int.lt_toNat, Int.toNat_of_nonneg (by omega)]
      omega
    · rw [Int.toNat_of_nonneg (by omega)]
      omega

theorem mem_getAllCollidingBlocks {w : ℤ → ℤ → ℤ → Option Block} {box : Box3} {b : Block}
    (hb : b ∈ getAllCollidingBlocks w box) :
    ∃ qx qy qz, w qx qy qz = some b ∧
      qx ∈ intRange (jsRound box.min.x) (jsRound box.max.x) ∧
      qy ∈ intRange ⌊box.min.y⌋ ⌈box.max.y⌉ ∧
      qz ∈ intRange (jsRound box.min.z) (jsRound box.max.z) := by
  simp only [getAllCollidingBlocks, List.mem_bind, List.mem_filterMap] at hb
  obtain ⟨qx, hqx, qy, hqy, qz, hqz, hw⟩ := hb
  exact ⟨qx, qy, qz, hw, hqx, hqy, hqz⟩

/-- C7: `Player.jump` fires exactly when the player is grounded and not
already jumping: it then sets the vertical velocity to `JUMP_VELOCITY`,
clears grounded and sets jumping; in every other case (airborne or
already jumping) the call is a no-op that leaves velocity, position,
grounded and jumping unchanged. -/
theorem jump_spec (s : PlayerState) :
    (s.isGrounded = true ∧ s.isJumping = false →
      jump s = { s with velocityY := JUMP_VELOCITY, isGrounded := false, isJumping := true }) ∧
    (¬ (s.isGrounded = true ∧ s.isJumping = false) → jump s = s) := by
  cases hg : s.isGrounded <;> cases hj : s.isJumping <;>
    simp [jump, hg, hj]

/-- Witness for C7: a jump request while already jumping is a no-op. -/
theorem jump_spec_witness :
    ¬ ((⟨⟨0, 5, 0⟩, 1 / 5, true, true⟩ : PlayerState).isGrounded = true ∧
        (⟨⟨0, 5, 0⟩, 1 / 5, true, true⟩ : PlayerState).isJumping = false) ∧
      jump ⟨⟨0, 5, 0⟩, 1 / 5, true, true⟩ = ⟨⟨0, 5, 0⟩, 1 / 5, true, true⟩ :=
  ⟨by simp, (jump_spec ⟨⟨0, 5, 0⟩, 1 / 5, true, true⟩).2 (by simp)⟩

theorem filter_nonempty_iff {α : Type} (l : List α) (p : α → Bool) :
    (!(l.filter p).isEmpty) = true ↔ ∃ b ∈ l, p b = true := by
  induction l with
  | nil => simp
  | cons a t ih => by_cases h : p a <;> simp [List.filter, h, ih]

/-- C8: a per-tick horizontal move is a binary block/allow: the position
is left exactly unchanged (the whole state is) when the candidate box
would exit the world bounds on x or z or some colliding block sits at a
y-level strictly above the candidate box bottom face — and that
side-collision test is exactly the existence of such a block among the
enumerated colliding blocks; otherwise the position becomes exactly the
candidate.  When the candidate differs from the current position,
rejection is equivalent to the position staying unchanged.  No branch
signals an error: every branch returns a state. -/
theorem moveDirection_spec (cs ws : ℕ) (w : ℤ → ℤ → ℤ → Option Block) (s : PlayerState)
    (direction : Vec3) (multiplier : ℚ) :
    (handleBoundariesCollision cs ws s.pos (nextPosition s.pos direction multiplier) = true ∨
        handleDirectionalCollision w s.pos (nextPosition s.pos direction multiplier) = true →
      moveDirection cs ws w s direction multiplier = s) ∧
    (handleBoundariesCollision cs ws s.pos (nextPosition s.pos direction multiplier) = false →
      handleDirectionalCollision w s.pos (nextPosition s.pos direction multiplier) = false →
      moveDirection cs ws w s direction multiplier =
        { s with pos := nextPosition s.pos direction multiplier }) ∧
    (handleDirectionalCollision w s.pos (nextPosition s.pos direction multiplier) = true ↔
      ∃ b ∈ getAllCollidingBlocks w
          (getNextPositionBoundingBox s.pos (nextPosition s.pos direction multiplier)),
        (getNextPositionBoundingBox s.pos (nextPosition s.pos direction multiplier)).min.y <
          ((b.pos.2.1 : ℚ))) ∧
    (nextPosition s.pos direction multiplier ≠ s.pos →
      ((moveDirection cs ws w s direction multiplier).pos = s.pos ↔
        (handleBoundariesCollision cs ws s.pos
            (nextPosition s.pos direction multiplier) = true ∨
          handleDirectionalCollision w s.pos
            (nextPosition s.pos direction multiplier) = true))) := by
  have hrej : handleBoundariesCollision cs ws s.pos
        (nextPosition s.pos direction multiplier) = true ∨
      handleDirectionalCollision w s.pos (nextPosition s.pos direction multiplier) = true →
      moveDirection cs ws w s direction multiplier = s := by
    intro h
    unfold moveDirection
    rcases h with h | h
    · rw [if_pos h]
    · by_cases hb : handleBoundariesCollision cs ws s.pos
          (nextPosition s.pos direction multiplier) = true
      · rw [if_pos hb]
      · rw [if_neg hb, if_pos h]
  have hacc : handleBoundariesCollision cs ws s.pos
        (nextPosition s.pos direction multiplier) = false →
      handleDirectionalCollision w s.pos (nextPosition s.pos direction multiplier) = false →
      moveDirection cs ws w s direction multiplier =
        { s with pos := nextPosition s.pos direction multiplier } := by
    intro h1 h2
    unfold moveDirection
    rw [if_neg (by simp [h1]), if_neg (by simp [h2])]
  have hchar : handleDirectionalCollision w s.pos
        (nextPosition s.pos direction multiplier) = true ↔
      ∃ b ∈ getAllCollidingBlocks w
          (getNextPositionBoundingBox s.pos (nextPosition s.pos direction multiplier)),
        (getNextPositionBoundingBox s.pos (nextPosition s.pos direction multiplier)).min.y <
          ((b.pos.2.1 : ℚ)) := by
    unfold handleDirectionalCollision
    rw [filter_nonempty_iff]
    simp only [decide_eq_true_eq, gt_iff_lt]
  refine ⟨hrej, hacc, hchar, ?_⟩
  intro hne
  constructor
  · intro hpos
    by_contra hcon
    push_neg at hcon
    obtain ⟨hb, hd⟩ := hcon
    have hb2 : handleBoundariesCollision cs ws s.pos
        (nextPosition s.pos direction multiplier) = false := by
      simpa using hb
    have hd2 : handleDirectionalCollision w s.pos
        (nextPosition s.pos direction multiplier) = false := by
      simpa using hd
    have heq := hacc hb2 hd2
    rw [heq] at hpos
    exact hne hpos
  · intro h
    rw [hrej h]

end Player

/-- Witness for C8: from the spawn state in an empty 4×2-block-wide world,
a step along x is accepted and the position becomes exactly the
candidate. -/
theorem moveDirection_spec_witness :
    Player.handleBoundariesCollision 2 4 s0.pos (Player.nextPosition s0.pos d1 1) = false ∧
      Player.handleDirectionalCollision w0 s0.pos (Player.nextPosition s0.pos d1 1) = false ∧
      Player.moveDirection 2 4 w0 s0 d1 1 =
        { s0 with pos := Player.nextPosition s0.pos d1 1 } := by
  have hb : Player.handleBoundariesCollision 2 4 s0.pos
      (Player.nextPosition s0.pos d1 1) = false := by
    norm_num [Player.handleBoundariesCollision, Player.getNextPositionBoundingBox,
      Player.getBoundingBox, Player.nextPosition, s0, d1, Player.PLAYER_WIDTH,
      Player.PLAYER_HEIGHT, Player.PLAYER_LENGTH, Player.BLOCK_SIZE,
      Player.PLAYER_BASE_SPEED]
  have hempty : Player.getAllCollidingBlocks w0
      (Player.getNextPositionBoundingBox s0.pos (Player.nextPosition s0.pos d1 1)) = [] := by
    simp [Player.getAllCollidingBlocks, w0]
  have hd : Player.handleDirectionalCollision w0 s0.pos
      (Player.nextPosition s0.pos d1 1) = false := by
    simp [Player.handleDirectionalCollision, hempty]
  exact ⟨hb, hd, (Player.moveDirection_spec 2 4 w0 s0 d1 1).2.1 hb hd⟩

namespace Player

theorem moveDirection_pos_y (cs ws : ℕ) (w : ℤ → ℤ → ℤ → Option Block) (s : PlayerState)
    (direction : Vec3) (multiplier : ℚ) (hy : direction.y = 0) :
    (moveDirection cs ws w s direction multiplier).pos.y = s.pos.y := by
  simp only [moveDirection]
  split_ifs <;> simp [nextPosition, hy]

theorem foldl_moves_pos_y (cs ws : ℕ) (w : ℤ → ℤ → ℤ → Option Block)
    (moves : List (Vec3 × ℚ)) (hm : ∀ m ∈ moves, m.1.y = 0) (s : PlayerState) :
    (moves.foldl (fun acc m => moveDirection cs ws w acc m.1 m.2) s).pos.y = s.pos.y := by
  induction moves generalizing s with
  | nil => rfl
  | cons m t ih =>
    rw [List.foldl_cons, ih (fun x hx => hm x (List.mem_cons_of_mem _ hx)),
      moveDirection_pos_y cs ws w s m.1 m.2 (hm m (List.mem_cons_self _ _))]

theorem jump_pos (s : PlayerState) : (jump s).pos = s.pos := by
  simp only [jump]
  split_ifs <;> rfl

theorem updateGroundedState_pos (w : ℤ → ℤ → ℤ → Option Block) (s : PlayerState) :
    (updateGroundedState w s).pos = s.pos := rfl

theorem belowCollidingBlocks_y {w : ℤ → ℤ → ℤ → Option Block}
    (hw : ∀ x y z b, w x y z = some b → b.pos = (x, y, z))
    {s : PlayerState} {b : Block} (hb : b ∈ belowCollidingBlocks w s) :
    b.pos.2.1 = ⌊s.pos.y + s.velocityY - 1⌋ := by
  simp only [belowCollidingBlocks, List.mem_filter, decide_eq_true_eq] at hb
  obtain ⟨hmem, hlt⟩ := hb
  obtain ⟨qx, qy, qz, hwq, hx, hy, hz⟩ := mem_getAllCollidingBlocks hmem
  have hpos := hw qx qy qz b hwq
  rw [mem_intRange] at hy
  have hmin : (getNextPositionBoundingBox s.pos
      ⟨s.pos.x, s.pos.y + s.velocityY, s.pos.z⟩).min.y = s.pos.y + s.velocityY - 1 := by
    simp only [getNextPositionBoundingBox, getBoundingBox, PLAYER_HEIGHT]
    ring
  rw [hmin] at hlt
  rw [hmin] at hy
  have hby : b.pos.2.1 = qy := by rw [hpos]
  rw [hby] at hlt ⊢
  have h1 : qy ≤ ⌊s.pos.y + s.velocityY - 1⌋ := Int.le_floor.mpr (le_of_lt hlt)
  omega

theorem handleGroundCollision_floor {w : ℤ → ℤ → ℤ → Option Block}
    (hw : ∀ x y z b, w x y z = some b → b.pos = (x, y, z))
    (s : PlayerState) (hs : 1 / 2 ≤ s.pos.y) :
    1 / 2 ≤ (handleGroundCollision w s).pos.y := by
  by_cases hv : s.velocityY > 0
  · simp only [handleGroundCollision, if_pos hv, handleFall]
    linarith
  · simp only [handleGroundCollision, if_neg hv]
    by_cases hbed : isBelowBedrock ⟨s.pos.x, s.pos.y + s.velocityY, s.pos.z⟩ = true
    · rw [if_pos hbed]
      simp only [handleHitBedrock]
      norm_num [PLAYER_VERTICAL_OFFSET, PLAYER_HEIGHT, BLOCK_SIZE]
    · rw [if_neg hbed]
      have hnb : 1 / 2 < s.pos.y + s.velocityY := by
        simp only [isBelowBedrock, decide_eq_true_eq, PLAYER_VERTICAL_OFFSET,
          PLAYER_HEIGHT, BLOCK_SIZE] at hbed
        norm_num at hbed
        linarith
      cases hcase : belowCollidingBlocks w s with
      | nil =>
        simp only [handleFall]
        linarith
      | cons b rest =>
        have hbm : b ∈ belowCollidingBlocks w s := by
          rw [hcase]
          exact List.mem_cons_self _ _
        have hby := belowCollidingBlocks_y hw hbm
        have hfl : (-1 : ℤ) ≤ ⌊s.pos.y + s.velocityY - 1⌋ := by
          rw [Int.le_floor]
          push_cast
          linarith
        simp only [handleHitBlockBelow, hby]
        have hoff2 : PLAYER_VERTICAL_OFFSET = 1 / 2 := by
          norm_num [PLAYER_VERTICAL_OFFSET, PLAYER_HEIGHT, BLOCK_SIZE]
        rw [hoff2]
        have hcast : (-1 : ℚ) ≤ ((⌊s.pos.y + s.velocityY - 1⌋ : ℤ) : ℚ) := by
          exact_mod_cast hfl
        linarith

theorem applyGravity_floor (G maxV : ℚ) {w : ℤ → ℤ → ℤ → Option Block}
    (hw : ∀ x y z b, w x y z = some b → b.pos = (x, y, z))
    (s : PlayerState) (hs : 1 / 2 ≤ s.pos.y) :
    1 / 2 ≤ (applyGravity G maxV w s).pos.y := by
  simp only [applyGravity]
  split_ifs with h1 h2
  · exact hs
  · exact handleGroundCollision_floor hw _ hs
  · exact handleGroundCollision_floor hw _ hs

end Player

/-- C10: a full simulation tick never leaves the player below the world
floor.  If the player starts a tick with `pos.y ≥ PLAYER_VERTICAL_OFFSET`
then — for any gravity constant, velocity cap, world bounds, horizontal
key inputs and jump key — the tick ends with `pos.y ≥
PLAYER_VERTICAL_OFFSET`: horizontal moves and the jump keep `y`
unchanged, and every ground-collision branch either snaps to bedrock
height, snaps on top of a below block (whose integer level is at least
`-1`), moves up with positive velocity, or free-falls only past the
bedrock test, which bounds the result strictly above the threshold.
The world function must report blocks at their own positions. -/
theorem move_above_floor (G maxV : ℚ) (cs ws : ℕ) (w : ℤ → ℤ → ℤ → Option Block)
    (hw : ∀ x y z b, w x y z = some b → b.pos = (x, y, z))
    (moves : List (Vec3 × ℚ)) (hm : ∀ m ∈ moves, m.1.y = 0) (jumpKey : Bool)
    (s : PlayerState) (hs : Player.PLAYER_VERTICAL_OFFSET ≤ s.pos.y) :
    Player.PLAYER_VERTICAL_OFFSET ≤ (Player.move G maxV cs ws w moves jumpKey s).pos.y := by
  have hoff : Player.PLAYER_VERTICAL_OFFSET = 1 / 2 := by
    norm_num [Player.PLAYER_VERTICAL_OFFSET, Player.PLAYER_HEIGHT, Player.BLOCK_SIZE]
  rw [hoff] at hs ⊢
  simp only [Player.move]
  set s1 := moves.foldl (fun acc m => Player.moveDirection cs ws w acc m.1 m.2) s with hs1
  have h1 : s1.pos.y = s.pos.y := Player.foldl_moves_pos_y cs ws w moves hm s
  set s2 := if jumpKey then Player.jump s1 else s1 with hs2
  have h2 : s2.pos = s1.pos := by
    rw [hs2]
    split_ifs
    · exact Player.jump_pos s1
    · rfl
  have h3 : (Player.updateGroundedState w s2).pos = s2.pos := Player.updateGroundedState_pos w s2
  refine Player.applyGravity_floor G maxV hw _ ?_
  rw [h3, h2, h1]
  exact hs

/-- Witness for C10: one tick from the spawn state above a single block
keeps the player above the floor. -/
theorem move_above_floor_witness :
    (∀ x y z b, w1 x y z = some b → b.pos = (x, y, z)) ∧
      (∀ m ∈ ([] : List (Vec3 × ℚ)), m.1.y = 0) ∧
      Player.PLAYER_VERTICAL_OFFSET ≤ s0.pos.y ∧
      Player.PLAYER_VERTICAL_OFFSET ≤
        (Player.move (-(1 / 4)) 0 2 4 w1 [] false s0).pos.y := by
  have hw : ∀ x y z b, w1 x y z = some b → b.pos = (x, y, z) := by
    intro x y z b h
    simp only [w1] at h
    split_ifs at h with hc
    · obtain ⟨rfl, rfl, rfl⟩ := hc
      obtain rfl := Option.some.inj h
      rfl
  have hs : Player.PLAYER_VERTICAL_OFFSET ≤ s0.pos.y := by
    norm_num [Player.PLAYER_VERTICAL_OFFSET, Player.PLAYER_HEIGHT, Player.BLOCK_SIZE, s0]
  exact ⟨hw, by simp, hs,
    move_above_floor (-(1 / 4)) 0 2 4 w1 hw [] (by simp) false s0 hs⟩

theorem ceil_as_floor (q : ℚ) : ⌈q⌉ = -⌊-q⌋ := by
  rw [Int.floor_neg, neg_neg]

theorem intRange_nodup (a b : ℤ) : (Player.intRange a b).Nodup := by
  unfold Player.intRange
  refine List.Nodup.map ?_ (List.nodup_range _)
  intro i j h
  have h2 : a + (i : ℤ) = a + (j : ℤ) := h
  omega

theorem bind_eq_single {α : Type} (f : ℤ → List α) (hf : ∀ x, x ≠ 0 → f x = []) :
    ∀ l : List ℤ, l.Nodup → l.bind f = if 0 ∈ l then f 0 else [] := by
  intro l
  induction l with
  | nil => intro h0; simp
  | cons a t ih =>
    intro hl
    rw [List.nodup_cons] at hl
    rcases eq_or_ne a 0 with rfl | ha
    · simp only [List.flatMap_cons, ih hl.2, if_neg hl.1, if_pos (List.mem_cons_self 0 t)]
      simp
    · have hmem : (0 ∈ a :: t) = (0 ∈ t) := by
        simp [List.mem_cons, Ne.symm ha]
      simp only [List.flatMap_cons, hf a ha, ih hl.2, List.nil_append, hmem]

theorem filterMap_eq_single {α : Type} (f : ℤ → Option α) (hf : ∀ x, x ≠ 0 → f x = none) :
    ∀ l : List ℤ, l.Nodup → l.filterMap f = if 0 ∈ l then (f 0).toList else [] := by
  intro l
  induction l with
  | nil => intro h0; simp
  | cons a t ih =>
    intro hl
    rw [List.nodup_cons] at hl
    rcases eq_or_ne a 0 with rfl | ha
    · rw [if_pos (List.mem_cons_self 0 t)]
      cases hf0 : f 0 with
      | none => simp [List.filterMap_cons, hf0, ih hl.2, hl.1]
      | some v => simp [List.filterMap_cons, hf0, ih hl.2, hl.1]
    · have hmem : (0 ∈ a :: t) = (0 ∈ t) := by
        simp [List.mem_cons, Ne.symm ha]
      simp only [List.filterMap_cons, hf a ha, ih hl.2, hmem]

theorem getAllCollidingBlocks_w1 (box : Box3) :
    Player.getAllCollidingBlocks w1 box =
      if (Player.jsRound box.min.x ≤ 0 ∧ 0 ≤ Player.jsRound box.max.x) ∧
          (⌊box.min.y⌋ ≤ 0 ∧ 0 ≤ ⌈box.max.y⌉) ∧
          (Player.jsRound box.min.z ≤ 0 ∧ 0 ≤ Player.jsRound box.max.z)
        then [createBlock BlockType.stone (0, 0, 0)] else [] := by
  have hinner : ∀ qx qy : ℤ, ¬(qx = 0 ∧ qy = 0) →
      (Player.intRange (Player.jsRound box.min.z) (Player.jsRound box.max.z)).filterMap
        (fun qz => w1 qx qy qz) = [] := by
    intro qx qy h
    rw [List.filterMap_eq_nil]
    intro qz _
    simp only [w1]
    rw [if_neg]
    intro hc
    exact h ⟨hc.1, hc.2.1⟩
  have hmid : ∀ qx : ℤ, qx ≠ 0 →
      (Player.intRange ⌊box.min.y⌋ ⌈box.max.y⌉).bind
        (fun qy =>
          (Player.intRange (Player.jsRound box.min.z) (Player.jsRound box.max.z)).filterMap
            (fun qz => w1 qx qy qz)) = [] := by
    intro qx hqx
    rw [List.bind_eq_nil]
    intro qy _
    exact hinner qx qy (fun hc => hqx hc.1)
  have hfy : ∀ qy : ℤ, qy ≠ 0 →
      (Player.intRange (Player.jsRound box.min.z) (Player.jsRound box.max.z)).filterMap
        (fun qz => w1 0 qy qz) = [] := by
    intro qy hqy
    exact hinner 0 qy (fun hc => hqy hc.2)
  have hfz : ∀ qz : ℤ, qz ≠ 0 → w1 0 0 qz = none := by
    intro qz h
    simp [w1, h]
  unfold Player.getAllCollidingBlocks
  simp only [bind_eq_single _ hmid _ (intRange_nodup _ _)]
  simp only [bind_eq_single _ hfy _ (intRange_nodup _ _)]
  simp only [filterMap_eq_single _ hfz _ (intRange_nodup _ _)]
  simp only [Player.mem_intRange]
  by_cases h1 : Player.jsRound box.min.x ≤ 0 ∧ 0 ≤ Player.jsRound box.max.x <;>
    by_cases h2 : ⌊box.min.y⌋ ≤ 0 ∧ 0 ≤ ⌈box.max.y⌉ <;>
      by_cases h3 : Player.jsRound box.min.z ≤ 0 ∧ 0 ≤ Player.jsRound box.max.z <;>
        simp [h1, h2, h3, w1, createBlock]

theorem tick_step1 : tick1 s0 = ⟨⟨0, 19 / 4, 0⟩, -(1 / 4), false, false⟩ := by
  norm_num [tick1, Player.move, Player.updateGroundedState, Player.applyGravity,
    Player.handleGroundCollision, Player.belowCollidingBlocks, Player.handleFall,
    Player.handleHitBedrock, Player.handleHitBlockBelow, Player.isBelowBedrock,
    getAllCollidingBlocks_w1, Player.getNextPositionBoundingBox, Player.getBoundingBox,
    Player.jsRound, Player.PLAYER_WIDTH, Player.PLAYER_HEIGHT, Player.PLAYER_LENGTH,
    Player.BLOCK_SIZE, Player.PLAYER_VERTICAL_OFFSET, ceil_as_floor, s0]

theorem tick_step2 :
    tick1 ⟨⟨0, 19 / 4, 0⟩, -(1 / 4), false, false⟩ = ⟨⟨0, 17 / 4, 0⟩, -(1 / 2), false, false⟩ := by
  norm_num [tick1, Player.move, Player.updateGroundedState, Player.applyGravity,
    Player.handleGroundCollision, Player.belowCollidingBlocks, Player.handleFall,
    Player.handleHitBedrock, Player.handleHitBlockBelow, Player.isBelowBedrock,
    getAllCollidingBlocks_w1, Player.getNextPositionBoundingBox, Player.getBoundingBox,
    Player.jsRound, Player.PLAYER_WIDTH, Player.PLAYER_HEIGHT, Player.PLAYER_LENGTH,
    Player.BLOCK_SIZE, Player.PLAYER_VERTICAL_OFFSET, ceil_as_floor]

theorem tick_step3 :
    tick1 ⟨⟨0, 17 / 4, 0⟩, -(1 / 2), false, false⟩ = ⟨⟨0, 7 / 2, 0⟩, -(3 / 4), false, false⟩ := by
  norm_num [tick1, Player.move, Player.updateGroundedState, Player.applyGravity,
    Player.handleGroundCollision, Player.belowCollidingBlocks, Player.handleFall,
    Player.handleHitBedrock, Player.handleHitBlockBelow, Player.isBelowBedrock,
    getAllCollidingBlocks_w1, Player.getNextPositionBoundingBox, Player.getBoundingBox,
    Player.jsRound, Player.PLAYER_WIDTH, Player.PLAYER_HEIGHT, Player.PLAYER_LENGTH,
    Player.BLOCK_SIZE, Player.PLAYER_VERTICAL_OFFSET, ceil_as_floor]

theorem tick_step4 :
    tick1 ⟨⟨0, 7 / 2, 0⟩, -(3 / 4), false, false⟩ = ⟨⟨0, 5 / 2, 0⟩, -1, false, false⟩ := by
  norm_num [tick1, Player.move, Player.updateGroundedState, Player.applyGravity,
    Player.handleGroundCollision, Player.belowCollidingBlocks, Player.handleFall,
    Player.handleHitBedrock, Player.handleHitBlockBelow, Player.isBelowBedrock,
    getAllCollidingBlocks_w1, Player.getNextPositionBoundingBox, Player.getBoundingBox,
    Player.jsRound, Player.PLAYER_WIDTH, Player.PLAYER_HEIGHT, Player.PLAYER_LENGTH,
    Player.BLOCK_SIZE, Player.PLAYER_VERTICAL_OFFSET, ceil_as_floor]

theorem tick_step5 :
    tick1 ⟨⟨0, 5 / 2, 0⟩, -1, false, false⟩ = sSettled := by
  norm_num [tick1, sSettled, Player.move, Player.updateGroundedState, Player.applyGravity,
    Player.handleGroundCollision, Player.belowCollidingBlocks, Player.handleFall,
    Player.handleHitBedrock, Player.handleHitBlockBelow, Player.isBelowBedrock,
    getAllCollidingBlocks_w1, Player.getNextPositionBoundingBox, Player.getBoundingBox,
    Player.jsRound, Player.PLAYER_WIDTH, Player.PLAYER_HEIGHT, Player.PLAYER_LENGTH,
    Player.BLOCK_SIZE, Player.PLAYER_VERTICAL_OFFSET, ceil_as_floor, createBlock]

theorem tick_fix : tick1 sSettled = sSettled := by
  norm_num [tick1, sSettled, Player.move, Player.updateGroundedState, Player.applyGravity,
    Player.handleGroundCollision, Player.belowCollidingBlocks, Player.handleFall,
    Player.handleHitBedrock, Player.handleHitBlockBelow, Player.isBelowBedrock,
    getAllCollidingBlocks_w1, Player.getNextPositionBoundingBox, Player.getBoundingBox,
    Player.jsRound, Player.PLAYER_WIDTH, Player.PLAYER_HEIGHT, Player.PLAYER_LENGTH,
    Player.BLOCK_SIZE, Player.PLAYER_VERTICAL_OFFSET, ceil_as_floor, createBlock]

/-- C4: ground snapping.  Part one: for any position-faithful world, when
the vertical velocity is not positive, the next position is above
bedrock, and blocks collide below the candidate box's bottom face, every
such block lies at the single integer level `⌊next.y - 1⌋` (so the first
is the highest) and `handleGroundCollision` snaps the player to
`block.y + 1 + PLAYER_VERTICAL_OFFSET` on top of it, zeroes the vertical
velocity, sets grounded and clears jumping.  Part two: a player spawned
at `y = 5` above the single solid block at the origin settles, after
enough ticks (with gravity `-1/4` per tick and velocity cap `0`), at
`y = 0 + 1 + PLAYER_VERTICAL_OFFSET = 3/2` with zero velocity and
grounded. -/
theorem ground_snap_spec :
    (∀ w : ℤ → ℤ → ℤ → Option Block,
        (∀ x y z b, w x y z = some b → b.pos = (x, y, z)) →
        ∀ s : PlayerState, ¬ s.velocityY > 0 →
        Player.isBelowBedrock ⟨s.pos.x, s.pos.y + s.velocityY, s.pos.z⟩ = false →
        Player.belowCollidingBlocks w s ≠ [] →
        (∀ b ∈ Player.belowCollidingBlocks w s,
            b.pos.2.1 = ⌊s.pos.y + s.velocityY - 1⌋) ∧
          Player.handleGroundCollision w s =
            { s with
              pos := ⟨s.pos.x,
                ((⌊s.pos.y + s.velocityY - 1⌋ : ℤ) : ℚ) + 1 + Player.PLAYER_VERTICAL_OFFSET,
                s.pos.z⟩
              velocityY := 0
              isGrounded := true
              isJumping := false }) ∧
    ∃ N : ℕ, ∀ n : ℕ, N ≤ n → tick1^[n] s0 = sSettled := by
  constructor
  · intro w hw s hv hbed hne
    refine ⟨fun b hb => Player.belowCollidingBlocks_y hw hb, ?_⟩
    simp only [Player.handleGroundCollision, if_neg hv, hbed, Bool.false_eq_true, if_false]
    cases hcase : Player.belowCollidingBlocks w s with
    | nil => exact absurd hcase hne
    | cons b rest =>
      have hbm : b ∈ Player.belowCollidingBlocks w s := by
        rw [hcase]
        exact List.mem_cons_self _ _
      have hby := Player.belowCollidingBlocks_y hw hbm
      simp only [Player.handleHitBlockBelow, hby]
  · refine ⟨5, fun n hn => ?_⟩
    obtain ⟨k, rfl⟩ : ∃ k, n = k + 5 := ⟨n - 5, by omega⟩
    have h5 : tick1^[5] s0 = sSettled := by
      show tick1 (tick1 (tick1 (tick1 (tick1 s0)))) = sSettled
      rw [tick_step1, tick_step2, tick_step3, tick_step4, tick_step5]
    rw [Function.iterate_add_apply, h5, Function.iterate_fixed tick_fix]

/-- Witness for C4: the concrete pre-snap state of the settling scenario
satisfies the snap hypotheses and snaps onto the origin block. -/
theorem ground_snap_spec_witness :
    (∀ x y z b, w1 x y z = some b → b.pos = (x, y, z)) ∧
      (¬ ((⟨⟨0, 5 / 2, 0⟩, -(5 / 4), false, false⟩ : PlayerState).velocityY > 0)) ∧
      Player.isBelowBedrock ⟨0, 5 / 2 + -(5 / 4), 0⟩ = false ∧
      Player.belowCollidingBlocks w1 ⟨⟨0, 5 / 2, 0⟩, -(5 / 4), false, false⟩ ≠ [] ∧
      Player.handleGroundCollision w1 ⟨⟨0, 5 / 2, 0⟩, -(5 / 4), false, false⟩ =
        ⟨⟨0, 3 / 2, 0⟩, 0, true, false⟩ := by
  have hw : ∀ x y z b, w1 x y z = some b → b.pos = (x, y, z) := by
    intro x y z b h
    simp only [w1] at h
    split_ifs at h with hc
    · obtain ⟨rfl, rfl, rfl⟩ := hc
      obtain rfl := Option.some.inj h
      rfl
  have hv : ¬ ((⟨⟨0, 5 / 2, 0⟩, -(5 / 4), false, false⟩ : PlayerState).velocityY > 0) := by
    norm_num
  have hbed : Player.isBelowBedrock ⟨0, 5 / 2 + -(5 / 4), 0⟩ = false := by
    norm_num [Player.isBelowBedrock, Player.PLAYER_VERTICAL_OFFSET, Player.PLAYER_HEIGHT,
      Player.BLOCK_SIZE]
  have hne : Player.belowCollidingBlocks w1 ⟨⟨0, 5 / 2, 0⟩, -(5 / 4), false, false⟩ ≠ [] := by
    norm_num [Player.belowCollidingBlocks, getAllCollidingBlocks_w1,
      Player.getNextPositionBoundingBox, Player.getBoundingBox, Player.jsRound,
      Player.PLAYER_WIDTH, Player.PLAYER_HEIGHT, Player.PLAYER_LENGTH, Player.BLOCK_SIZE,
      ceil_as_floor, createBlock]
  have hconc := (ground_snap_spec.1 w1 hw ⟨⟨0, 5 / 2, 0⟩, -(5 / 4), false, false⟩ hv hbed hne).2
  refine ⟨hw, hv, hbed, hne, ?_⟩
  rw [hconc]
  norm_num [Player.PLAYER_VERTICAL_OFFSET, Player.PLAYER_HEIGHT, Player.BLOCK_SIZE]
